import Mathlib

/-!
Shallow embedding of the MySQL storage adapter's query/update compilers
(`src/unnamed/part_000` and `MySQLStorageAdapter.js`): SQL fragment
construction with pg-promise style placeholders, schema view transforms,
the regex literalizer, and the error-code handling of the read/write paths.

Template literals of the source are embedded as token lists: every
interpolated `$\x7bindex\x7d:name` becomes a `Tok.ph`, every `$\x7bindex\x7d`
a `Tok.phRaw`, and all fixed text (and text interpolated from data, such as
the dotted-field branch inlining its literal) becomes `Tok.lit` pieces, so
that rendering the list reproduces the exact string the source builds.
-/

namespace PMSQL

/-- One piece of an SQL template string: literal text, a `$n:name`
placeholder, or a bare `$n` placeholder. -/
inductive Tok where
  | lit (s : String)
  | ph (n : Nat)
  | phRaw (n : Nat)
deriving DecidableEq, Repr

/-- Render a token list back to the exact string the source builds. -/
def renderTok : Tok → String
  | .lit s => s
  | .ph n => "$" ++ toString n ++ ":name"
  | .phRaw n => "$" ++ toString n

/-- Render a whole fragment. -/
def render (f : List Tok) : String :=
  (f.map renderTok).foldr (· ++ ·) ""

/-- `Array.prototype.join(sep)` over fragments, at the token level. -/
def joinFrags (sep : String) : List (List Tok) → List Tok
  | [] => []
  | [f] => f
  | f :: rest => f ++ Tok.lit sep :: joinFrags sep rest

/-- The placeholder indices occurring in a fragment, in textual order
(`lit` pieces contribute nothing, both placeholder styles count). -/
def phs : List Tok → List Nat
  | [] => []
  | .lit _ :: rest => phs rest
  | .ph n :: rest => n :: phs rest
  | .phRaw n :: rest => n :: phs rest

/-- First-occurrence deduplication (JS-order distinct values), with an
accumulator of already-seen indices. -/
def fstDedupAux (seen : List Nat) : List Nat → List Nat
  | [] => []
  | x :: xs => if x ∈ seen then fstDedupAux seen xs else x :: fstDedupAux (x :: seen) xs

/-- The distinct placeholder indices of a list, in order of first occurrence. -/
def fstDedup (l : List Nat) : List Nat := fstDedupAux [] l

/-! ## JS object maps

JS objects are embedded as association lists in property-insertion order:
setting an existing key keeps its position, setting a new key appends,
delete removes the entry. -/

/-- Property read (`o[k]`): `none` is JS `undefined`. -/
def jsGet {α : Type} : List (String × α) → String → Option α
  | [], _ => none
  | (k, v) :: rest, key => if k = key then some v else jsGet rest key

/-- Property write (`o[k] = v`). -/
def jsSet {α : Type} : List (String × α) → String → α → List (String × α)
  | [], key, v => [(key, v)]
  | (k, w) :: rest, key, v =>
    if k = key then (k, v) :: rest else (k, w) :: jsSet rest key v

/-- Property delete (`delete o[k]`). -/
def jsDelete {α : Type} : List (String × α) → String → List (String × α)
  | [], _ => []
  | (k, w) :: rest, key => if k = key then rest else (k, w) :: jsDelete rest key

/-! ## Schemas -/

/-- A field descriptor: its `type` string and, when a `contents` object is
present, that object's `type` (the only part of `contents` the source reads). -/
structure FieldDef where
  type : String
  contentsType : Option String := none
deriving DecidableEq, Repr

/-- A class-level permission map for one action. -/
def PermMap := List (String × Bool)
deriving DecidableEq, Repr

/-- A full class-level permission document (all six actions present). -/
structure CLPS where
  find : PermMap
  get : PermMap
  create : PermMap
  update : PermMap
  delete : PermMap
  addField : PermMap
deriving DecidableEq, Repr

/-- A sparse class-level permission document as supplied by a caller:
absent actions are `none` (the embedding restricts permission documents
to the six known action keys, the only ones the merge semantics of the
source distinguishes). -/
structure SparseCLPS where
  find : Option PermMap := none
  get : Option PermMap := none
  create : Option PermMap := none
  update : Option PermMap := none
  delete : Option PermMap := none
  addField : Option PermMap := none
deriving DecidableEq, Repr

/-- A schema document. `fields = none` is a JS-`undefined` field map;
`classLevelPermissions = none` means the key is absent. -/
structure Schema where
  className : String
  fields : Option (List (String × FieldDef))
  classLevelPermissions : Option SparseCLPS := none
deriving DecidableEq, Repr

/-- `emptyCLPS` of the source: every action all-denied (empty map). -/
def emptyCLPS : CLPS := ⟨[], [], [], [], [], []⟩

/-- `defaultCLPS` of the source: every action `\x7b'*': true\x7d`. -/
def defaultCLPS : CLPS :=
  ⟨[("*", true)], [("*", true)], [("*", true)], [("*", true)], [("*", true)], [("*", true)]⟩

/-- `\x7b...emptyCLPS, ...clp\x7d`: per-action merge of a sparse permission
document over the all-denied base. -/
def mergeCLPS (clp : SparseCLPS) : CLPS :=
  ⟨clp.find.getD [], clp.get.getD [], clp.create.getD [], clp.update.getD [],
   clp.delete.getD [], clp.addField.getD []⟩

/-- The result shape of `toParseSchema`. -/
structure ParseSchema where
  className : String
  fields : Option (List (String × FieldDef))
  classLevelPermissions : CLPS
deriving DecidableEq, Repr

/-- `toParseSchema` (part_000 lines 78-95): drops `_hashed_password` for
`_User`, drops `_wperm`/`_rperm`, and normalizes class-level permissions.
`none` models the TypeError the source raises when it dereferences an
undefined field map of a `_User` schema. -/
def toParseSchema (schema : Schema) : Option ParseSchema :=
  match schema.fields, schema.className == "_User" with
  | none, true => none
  | fs, isUser =>
    let fs1 := if isUser then fs.map (jsDelete · "_hashed_password") else fs
    let fs2 := match fs1 with
      | none => none
      | some m => some (jsDelete (jsDelete m "_wperm") "_rperm")
    let clps := match schema.classLevelPermissions with
      | none => defaultCLPS
      | some clp => mergeCLPS clp
    some ⟨schema.className, fs2, clps⟩

/-- `toMySQLSchema` (part_000 lines 97-109) as the pure image of its
in-place mutation: ensures a field map, injects the implicit
`_wperm`/`_rperm` Array-of-String fields and, for `_User`, the
authentication bookkeeping fields.  The source assigns these into the
caller's schema object, so after a `buildWhereClause` call the caller's
schema equals this function's result. -/
def toMySQLSchema (schema : Schema) : Schema :=
  let fs := schema.fields.getD []
  let fs := jsSet fs "_wperm" ⟨"Array", some "String"⟩
  let fs := jsSet fs "_rperm" ⟨"Array", some "String"⟩
  let fs := if schema.className = "_User" then
      jsSet (jsSet fs "_hashed_password" ⟨"String", none⟩) "_password_history" ⟨"Array", none⟩
    else fs
  { schema with fields := some fs }

/-! ## Regex literalizer -/

/-- `[0-9a-zA-Z]` of the source's literalization step. -/
def isAlnum (c : Char) : Bool := c.isAlpha || c.isDigit

/-- `createLiteralRegex` (part_000 lines 195-204): escape every character of
a literal span; alphanumerics pass, a single quote is doubled, anything else
is backslash-escaped. -/
def createLiteralRegex : List Char → List Char
  | [] => []
  | c :: rest =>
    (if isAlnum c then [c]
     else if c = '\'' then ['\'', '\'']
     else ['\\', c]) ++ createLiteralRegex rest

/-- Whether `l` begins with `\Q`. -/
def startsQ : List Char → Bool
  | '\\' :: 'Q' :: _ => true
  | _ => false

/-- Whether `l` begins with `\E`. -/
def startsE : List Char → Bool
  | '\\' :: 'E' :: _ => true
  | _ => false

/-- Match of `/\\Q((?!\\E).*)\\E$/` at offset `i` of the original list `s`
(with `rest = s.drop i`): `\Q` here, the whole string ends in `\E`, the
group between (which `.` forbids from holding a newline) does not itself
start with `\E`. -/
def m1At (s rest : List Char) (i : Nat) : Bool :=
  startsQ rest &&
    (let body := (s.drop (i + 2)).dropLast.dropLast
     decide (s.length ≥ i + 4) &&
       decide ((s.drop (s.length - 2)) = ['\\', 'E']) &&
       body.all (· ≠ '\n') && !startsE (s.drop (i + 2)))

/-- Match of `/\\Q((?!\\E).*)$/` at offset `i`: `\Q` here and the rest of
the string (newline-free) does not start with `\E`. -/
def m2At (s rest : List Char) (i : Nat) : Bool :=
  startsQ rest &&
    (let body := s.drop (i + 2)
     body.all (· ≠ '\n') && !startsE body)

/-- Leftmost match position of matcher `m` over `s`, scanning `rest` from
offset `i` (JS `String.match` leftmost-match search). -/
def findFrom (m : List Char → List Char → Nat → Bool) (s : List Char) :
    List Char → Nat → Option Nat
  | [], _ => none
  | c :: rest, i =>
    if m s (c :: rest) i then some i else findFrom m s rest (i + 1)

/-- `s.replace(/([^\\])(\\E)/, '$1')`: drop the first `\E` that follows a
non-backslash character. -/
def replPairE : List Char → List Char
  | a :: b :: c :: rest =>
    if a ≠ '\\' && b = '\\' && c = 'E' then a :: rest
    else a :: replPairE (b :: c :: rest)
  | l => l

/-- `s.replace(/([^\\])(\\Q)/, '$1')`. -/
def replPairQ : List Char → List Char
  | a :: b :: c :: rest =>
    if a ≠ '\\' && b = '\\' && c = 'Q' then a :: rest
    else a :: replPairQ (b :: c :: rest)
  | l => l

/-- `s.replace(/^\\E/, '')`. -/
def stripLeadE : List Char → List Char
  | '\\' :: 'E' :: rest => rest
  | l => l

/-- `s.replace(/^\\Q/, '')`. -/
def stripLeadQ : List Char → List Char
  | '\\' :: 'Q' :: rest => rest
  | l => l

/-- `s.replace(/([^'])'/, "$1''")`: double the first quote that follows a
non-quote character. -/
def dblQuoteAfter : List Char → List Char
  | a :: b :: rest =>
    if a ≠ '\'' && b = '\'' then a :: '\'' :: '\'' :: rest
    else a :: dblQuoteAfter (b :: rest)
  | l => l

/-- `s.replace(/^'([^'])/, "''$1")`. -/
def dblQuoteLead : List Char → List Char
  | '\'' :: b :: rest =>
    if b ≠ '\'' then '\'' :: '\'' :: b :: rest else '\'' :: b :: rest
  | l => l

/-- `s.replace('\\w', '[0-9a-zA-Z]')`: first literal occurrence only. -/
def replWordClass : List Char → List Char
  | '\\' :: 'w' :: rest => ('[' :: "0-9a-zA-Z".data) ++ (']' :: rest)
  | a :: rest => a :: replWordClass rest
  | [] => []

/-- The no-match tail of `literalizeRegexPart` (part_000 lines 228-236):
the chained single-occurrence replaces. -/
def literalizeTail (s : List Char) : List Char :=
  replWordClass (dblQuoteLead (dblQuoteAfter (stripLeadQ (stripLeadE
    (replPairQ (replPairE s))))))

/-- `literalizeRegexPart` (part_000 lines 206-237) with an explicit
recursion bound: the source recurses on the strict prefix before the
leftmost `\Q...\E` (or unterminated `\Q...`) span, so any bound above the
input length is enough (proved below). -/
def litAux : Nat → List Char → List Char
  | 0, _ => []
  | fuel + 1, s =>
    match findFrom m1At s s 0 with
    | some i =>
      litAux fuel (s.take i) ++ createLiteralRegex ((s.drop (i + 2)).dropLast.dropLast)
    | none =>
      match findFrom m2At s s 0 with
      | some i => litAux fuel (s.take i) ++ createLiteralRegex (s.drop (i + 2))
      | none => literalizeTail s

/-- `literalizeRegexPart`, at its sufficient bound. -/
def literalizeRegexPart (s : List Char) : List Char := litAux (s.length + 1) s

/-- `processRegexPattern` (part_000 lines 181-193): preserve a leading `^`
or trailing `$` anchor outside the literalization. -/
def processRegexPattern (s : List Char) : List Char :=
  if s ≠ [] ∧ s.head? = some '^' then
    '^' :: literalizeRegexPart (s.drop 1)
  else if s ≠ [] ∧ s.getLast? = some '$' then
    literalizeRegexPart (s.dropLast) ++ ['$']
  else
    literalizeRegexPart s

/-! ## removeWhiteSpace (extended-mode stripping)

The four `replace` passes of the source, as left-to-right scans with an
explicit step budget (each scan consumes at least one character per step,
so the input length bounds the recursion). JS `\s` is modelled by the four
ASCII whitespace characters. -/

/-- ASCII whitespace standing in for JS `\s`. -/
def isWs (c : Char) : Bool := c = ' ' || c = '\t' || c = '\n' || c = '\r'

/-- The suffix after the first newline, `none` when there is none. -/
def afterFirstNl : List Char → Option (List Char)
  | [] => none
  | '\n' :: rest => some rest
  | _ :: rest => afterFirstNl rest

/-- `regex.replace(/([^\\])#.*\n/gmi, '$1')`: drop non-escaped comments. -/
def sc1Aux : Nat → List Char → List Char
  | 0, l => l
  | fuel + 1, l =>
    match l with
    | a :: '#' :: rest =>
      if a ≠ '\\' then
        match afterFirstNl rest with
        | some tail => a :: sc1Aux fuel tail
        | none => a :: sc1Aux fuel ('#' :: rest)
      else a :: sc1Aux fuel ('#' :: rest)
    | a :: rest => a :: sc1Aux fuel rest
    | [] => []

/-- `.replace(/^#.*\n/gmi, '')`: drop comment-only lines. -/
def sc2Aux : Nat → Bool → List Char → List Char
  | 0, _, l => l
  | fuel + 1, atStart, l =>
    match atStart, l with
    | true, '#' :: rest =>
      (match afterFirstNl rest with
       | some tail => sc2Aux fuel true tail
       | none => '#' :: sc2Aux fuel false rest)
    | _, c :: rest => c :: sc2Aux fuel (c = '\n') rest
    | _, [] => []

/-- `.replace(/([^\\])\s+/gmi, '$1')`: drop non-escaped whitespace runs. -/
def sc3Aux : Nat → List Char → List Char
  | 0, l => l
  | fuel + 1, l =>
    match l with
    | a :: b :: rest =>
      if a ≠ '\\' && isWs b then a :: sc3Aux fuel (rest.dropWhile isWs)
      else a :: sc3Aux fuel (b :: rest)
    | l => l

/-- `String.prototype.trim` over the modelled whitespace. -/
def trimWs (l : List Char) : List Char :=
  ((l.dropWhile isWs).reverse.dropWhile isWs).reverse

/-- `removeWhiteSpace` (part_000 lines 165-179). -/
def removeWhiteSpace (regex : List Char) : List Char :=
  let r := if regex.getLast? = some '\n' then regex else regex ++ ['\n']
  let r := sc1Aux r.length r
  let r := sc2Aux r.length true r
  let r := sc3Aux r.length r
  trimWs (r.dropWhile isWs)

/-! ## Query documents -/

/-- A scalar value occurring in a query: a bare JSON scalar or a tagged
Date/File/Pointer value.  `date ""` models a tagged Date whose `iso` is
falsy; the className of a tagged Pointer operand is not read by the
compiler and is not carried. -/
inductive QOperand where
  | null
  | str (s : String)
  | bool (b : Bool)
  | num (n : Int)
  | date (iso : String)
  | file (name : String)
  | ptr (objectId : String)
deriving DecidableEq, Repr

/-- JS truthiness of an operand (`if (fieldValue.$eq)` and friends): tagged
objects are truthy, `null`, `0`, `false` and `""` are falsy. -/
def truthy : QOperand → Bool
  | .null => false
  | .str s => s ≠ ""
  | .bool b => b
  | .num n => n ≠ 0
  | .date _ => true
  | .file _ => true
  | .ptr _ => true

/-- JSON string escaping (quote and backslash; control characters are not
modelled). -/
def jsonEscape (s : String) : String :=
  String.mk (s.data.foldr (fun c acc =>
    if c = '"' then '\\' :: '"' :: acc
    else if c = '\\' then '\\' :: '\\' :: acc
    else c :: acc) [])

/-- `JSON.stringify` of an operand, with the conventional Parse key order
for tagged values. -/
def jsonOfOperand : QOperand → String
  | .null => "null"
  | .str s => "\"" ++ jsonEscape s ++ "\""
  | .bool b => if b then "true" else "false"
  | .num n => toString n
  | .date iso => "\x7b\"__type\":\"Date\",\"iso\":\"" ++ jsonEscape iso ++ "\"\x7d"
  | .file n => "\x7b\"__type\":\"File\",\"name\":\"" ++ jsonEscape n ++ "\"\x7d"
  | .ptr o => "\x7b\"__type\":\"Pointer\",\"objectId\":\"" ++ jsonEscape o ++ "\"\x7d"

/-- `JSON.stringify` of an array of operands. -/
def jsonList (l : List QOperand) : String :=
  "[" ++ String.intercalate "," (l.map jsonOfOperand) ++ "]"

/-- Replace the first `T` by a space (JS `String.replace('T', ' ')`). -/
def replFirstT : List Char → List Char
  | [] => []
  | c :: rest => if c = 'T' then ' ' :: rest else c :: replFirstT rest

/-- Drop the first `Z` (JS `String.replace('Z', '')`). -/
def dropFirstZ : List Char → List Char
  | [] => []
  | c :: rest => if c = 'Z' then rest else c :: dropFirstZ rest

/-- `formatDateToMySQL` on an ISO string (part_000 lines 61-68): the
`Parse._encode(new Date(v)).iso` round-trip is modelled as the identity on
the given ISO text (calendar normalization is out of scope), followed by
the source's two single-occurrence replaces. -/
def formatDateToMySQL (s : String) : String :=
  String.mk (dropFirstZ (replFirstT s.data))

/-- `toMySQLValue` (part_000 lines 46-59): unwrap tagged Date and File
values; everything else passes through. -/
def toMySQLValue : QOperand → QOperand
  | .date iso => if iso = "" then .null else .str (formatDateToMySQL iso)
  | .file n => .str n
  | v => v

/-- `transformValue` (part_000 lines 70-76): unwrap a tagged Pointer to its
objectId; applied to the whole values list on return. -/
def transformValue : QOperand → QOperand
  | .ptr o => .str o
  | v => v

/-- A geo point's coordinates (numbers are embedded as integers). -/
structure GeoPointV where
  longitude : Int
  latitude : Int
deriving DecidableEq, Repr

/-- An element of a `$polygon` list: a tagged GeoPoint, or some other value
(which the source rejects). -/
inductive PolyPoint where
  | geo (p : GeoPointV)
  | notGeo
deriving DecidableEq, Repr

/-- The `$polygon` value: an array of points, or a non-array value. -/
inductive PolyField where
  | notArr
  | arr (pts : List PolyPoint)
deriving DecidableEq, Repr

/-- A `$geoWithin` operand (`$polygon` key optional). -/
structure GeoWithinDoc where
  polygon : Option PolyField := none
deriving DecidableEq, Repr

/-- A `$within` operand (`$box` key optional; a box is two corner points). -/
structure WithinDoc where
  box : Option (GeoPointV × GeoPointV) := none
deriving DecidableEq, Repr

/-- The `$search` object of a `$text` operand (string-typed entries; the
`typeof`-mismatch throws for non-string `$term`/`$language` are outside the
model). -/
structure SearchSpec where
  term : Option String := none
  language : Option String := none
  caseSensitive : Option Bool := none
  diacriticSensitive : Option Bool := none
deriving DecidableEq, Repr

/-- A `$text` operand: `search = none` models a `$search` that is not an
object. -/
structure TextDoc where
  search : Option SearchSpec := none
deriving DecidableEq, Repr

/-- A `__type` tag on a query value. -/
inductive TypeTag where
  | pointer (objectId : String)
  | date (iso : String)
  | geoPoint (p : GeoPointV)
deriving DecidableEq, Repr

/-- An operator object: exactly the keys the compiler reads.  `none` is an
absent key; `$in`/`$nin`/`$all` are modelled as present only when they are
arrays (the shapes the `Array.isArray` guards accept), and their elements
as scalars, so the `_.flatMap` identity flattening of the source is the
identity here. -/
structure OpObj where
  ne : Option QOperand := none
  eq : Option QOperand := none
  qin : Option (List QOperand) := none
  nin : Option (List QOperand) := none
  all : Option (List QOperand) := none
  exs : Option Bool := none
  text : Option TextDoc := none
  nearSphere : Option GeoPointV := none
  maxDistance : Option Int := none
  within : Option WithinDoc := none
  geoWithin : Option GeoWithinDoc := none
  regex : Option String := none
  options : Option String := none
  ttype : Option TypeTag := none
  gt : Option QOperand := none
  lt : Option QOperand := none
  gte : Option QOperand := none
  lte : Option QOperand := none
deriving DecidableEq, Repr

mutual
/-- A query field value: `null`, a bare scalar, an array of sub-documents
(meaningful under `$or`/`$and`), or an operator/tagged object. -/
inductive QVal where
  | vnull
  | vstr (s : String)
  | vbool (b : Bool)
  | vnum (n : Int)
  | vsub (qs : QueryL)
  | vop (o : OpObj)
deriving DecidableEq, Repr

/-- A query document: field names with values, in iteration order. -/
inductive Query where
  | nil
  | cons (name : String) (v : QVal) (rest : Query)
deriving DecidableEq, Repr

/-- A list of sub-documents (the value of `$or`/`$and`). -/
inductive QueryL where
  | lnil
  | lcons (q : Query) (rest : QueryL)
deriving DecidableEq, Repr
end

/-- The operator object a value presents to the operator blocks: property
reads on a non-operator object yield `undefined`, i.e. the empty object. -/
def opOf : QVal → OpObj
  | .vop o => o
  | _ => {}

/-- The number of sub-documents in a `QueryL`. -/
def QueryL.size : QueryL → Nat
  | .lnil => 0
  | .lcons _ rest => 1 + rest.size

/-- JS string coercion of a field value (template-literal interpolation):
objects print as `[object Object]`, arrays join their elements with commas. -/
def jsToStringQ : QVal → String
  | .vnull => "null"
  | .vstr s => s
  | .vbool b => if b then "true" else "false"
  | .vnum n => toString n
  | .vop _ => "[object Object]"
  | .vsub qs => String.intercalate "," (List.replicate qs.size "[object Object]")

/-- The error outcomes of a compile call. -/
inductive Err where
  | opForbidden (v : QVal)
  | updForbidden (msg : String)
  | invalidJson (msg : String)
  | geoRange
  | typeErr
deriving DecidableEq, Repr

/-- The JSON-path expression for a dotted field name (part_000 lines
260-272): backticked head, `->>`, then `'$.c1.c2...'`. -/
def dotName (components : List String) : String :=
  match components with
  | [] => "'"
  | c0 :: rest =>
    "`" ++ c0 ++ "`->>" ++
      (match rest with
       | [] => ""
       | c1 :: more => "'$." ++ c1 ++ String.join (more.map ("." ++ ·))) ++ "'"

/-! ### The operator blocks of `buildWhereClause`

One definition per `if` block of the per-field loop (part_000 lines
311-573), each returning the patterns and values it pushes and the new
placeholder index. -/

/-- The `$ne` block (lines 311-330).  The `Bool` is the `continue` of the
null sub-case.  In the Array-field case the source overwrites the operand
with its JSON encoding before the shared push. -/
def stepNe (isArr : Bool) (name : String) (o : OpObj) (i : Nat) :
    List (List Tok) × List QOperand × Nat × Bool :=
  match o.ne with
  | none => ([], [], i, false)
  | some nv =>
    if isArr then
      ([[.lit "JSON_CONTAINS(`", .ph i, .lit "`, '", .ph (i + 1), .lit "') != 1"]],
       [.str name, .str (jsonList [nv])], i + 2, false)
    else if nv = .null then
      ([[.lit "`", .ph i, .lit "` IS NOT NULL"]], [.str name], i + 1, true)
    else
      ([[.lit "(`", .ph i, .lit "` <> '", .ph (i + 1), .lit "' OR `", .ph i,
         .lit "` IS NULL)"]],
       [.str name, nv], i + 2, false)

/-- The `$eq` block (lines 332-336): truthiness-guarded. -/
def stepEq (name : String) (o : OpObj) (i : Nat) :
    List (List Tok) × List QOperand × Nat :=
  match o.eq with
  | some v =>
    if truthy v then
      ([[.lit "`", .ph i, .lit "` = '", .ph (i + 1), .lit "'"]], [.str name, v], i + 2)
    else ([], [], i)
  | none => ([], [], i)

/-- The element loop of the Array-of-String `$in` branch (lines 345-352):
`listIndex`-indexed tokens, with the one-shot `allowNull` offset. -/
def inStrFold (i : Nat) : List QOperand → Nat → Bool → List QOperand × List (List Tok)
  | [], _, _ => ([], [])
  | e :: rest, pos, allowNull =>
    if e = .null then inStrFold i rest (pos + 1) true
    else
      let (vs, ps) := inStrFold i rest (pos + 1) allowNull
      (e :: vs,
       [.lit "JSON_CONTAINS(`", .ph i, .lit "`, JSON_ARRAY('",
        .ph (i + 1 + pos - (if allowNull then 1 else 0)), .lit "')) = 1"] :: ps)

/-- The Array-of-String `$in` branch (lines 338-359). -/
def inStrBranch (name : String) (l : List QOperand) (i : Nat) :
    List (List Tok) × List QOperand × Nat :=
  let (vs, ps) := inStrFold i l 0 false
  let tempIn := joinFrags " OR " ps
  let pattern :=
    if l.contains QOperand.null then
      Tok.lit "(`" :: Tok.ph i :: Tok.lit "` IS NULL OR " :: (tempIn ++ [Tok.lit ")"])
    else Tok.lit "`" :: Tok.ph i :: Tok.lit "` && " :: tempIn
  ([pattern], QOperand.str name :: vs, i + 1 + ps.length)

/-- The Array-field element loop of `createConstraint` (lines 368-371). -/
def ccArrFold (i : Nat) (op : String) : List QOperand → Nat → List QOperand × List (List Tok)
  | [], _ => ([], [])
  | e :: rest, k =>
    let (vs, ps) := ccArrFold i op rest (k + 1)
    (.str (jsonOfOperand e) :: vs,
     [.lit "JSON_CONTAINS(`", .ph i, .lit "`, '", .ph (i + 1 + k),
      .lit ("') " ++ op ++ " 1")] :: ps)

/-- The scalar-field element loop of `createConstraint` (lines 377-380). -/
def ccNonArrFold (i : Nat) : List QOperand → Nat → List QOperand × List (List Tok)
  | [], _ => ([], [])
  | e :: rest, k =>
    let (vs, ps) := ccNonArrFold i rest (k + 1)
    (e :: vs, [.lit "'", .ph (i + 1 + k), .lit "'"] :: ps)

/-- `createConstraint` (lines 361-389). -/
def createConstraint (name : String) (isArr : Bool) (baseArray : List QOperand)
    (notIn : Bool) (i : Nat) : List (List Tok) × List QOperand × Nat :=
  if baseArray.length > 0 then
    if isArr then
      let op := if notIn then " != " else " = "
      let (vs, ps) := ccArrFold i op baseArray 0
      ([joinFrags " || " ps], QOperand.str name :: vs, i + 1 + ps.length)
    else
      let notS := if notIn then " NOT " else ""
      let (vs, ps) := ccNonArrFold i baseArray 0
      ([Tok.lit "`" :: Tok.ph i :: Tok.lit ("` " ++ notS ++ " IN (") ::
         (joinFrags "," ps ++ [Tok.lit ")"])],
       QOperand.str name :: vs, i + 1 + ps.length)
  else if !notIn then
    ([[.lit "`", .ph i, .lit "` IS NULL"]], [.str name], i + 1)
  else ([], [], i)

/-- The `$in`/`$nin` dispatch (lines 337-396): the Array-of-String `$in`
branch, else `createConstraint` for a present `$in` and then a present
`$nin` (an empty array is truthy in JS). -/
def stepInNin (isArr contentsString : Bool) (name : String) (o : OpObj) (i : Nat) :
    List (List Tok) × List QOperand × Nat :=
  if o.qin.isSome && isArr && contentsString then
    match o.qin with
    | some l => inStrBranch name l i
    | none => ([], [], i)
  else if o.qin.isSome || o.nin.isSome then
    let (p1, v1, i1) := match o.qin with
      | some l => createConstraint name isArr l false i
      | none => ([], [], i)
    let (p2, v2, i2) := match o.nin with
      | some l => createConstraint name isArr l true i1
      | none => ([], [], i1)
    (p1 ++ p2, v1 ++ v2, i2)
  else ([], [], i)

/-- The `$all` block (lines 398-402): Array fields only. -/
def stepAll (isArr : Bool) (name : String) (o : OpObj) (i : Nat) :
    List (List Tok) × List QOperand × Nat :=
  match o.all with
  | some l =>
    if isArr then
      ([[.lit "JSON_CONTAINS(`", .ph i, .lit "`, '", .ph (i + 1), .lit "') = 1"]],
       [.str name, .str (jsonList l)], i + 2)
    else ([], [], i)
  | none => ([], [], i)

/-- The `$exists` block (lines 404-412). -/
def stepExists (name : String) (o : OpObj) (i : Nat) :
    List (List Tok) × List QOperand × Nat :=
  match o.exs with
  | some b =>
    if b then ([[.ph i, .lit " IS NOT NULL"]], [.str name], i + 1)
    else ([[.lit "`", .ph i, .lit "` IS NULL"]], [.str name], i + 1)
  | none => ([], [], i)

/-- The `$text` block (lines 414-459) with its validation throws. -/
def stepText (name : String) (o : OpObj) (i : Nat) :
    Except Err (List (List Tok) × List QOperand × Nat) :=
  match o.text with
  | none => .ok ([], [], i)
  | some td =>
    match td.search with
    | none => .error (.invalidJson "bad $text: $search, should be object")
    | some sp =>
      match sp.term with
      | none => .error (.invalidJson "bad $text: $term, should be string")
      | some t =>
        if t = "" then .error (.invalidJson "bad $text: $term, should be string")
        else if sp.caseSensitive = some true then
          .error (.invalidJson "bad $text: $caseSensitive not supported, please use $regex or create a separate lower case column.")
        else if sp.diacriticSensitive = some false then
          .error (.invalidJson "bad $text: $diacriticSensitive - false not supported, install MySQL Unaccent Extension")
        else
          .ok ([[.lit "MATCH (`", .ph i, .lit "`) AGAINST ('", .ph (i + 1), .lit "')"]],
               [.str name, .str t], i + 2)

/-- The `$nearSphere` block (lines 461-476): always pushes a distance sort;
`$maxDistance` is truthiness-guarded. -/
def stepNear (name : String) (o : OpObj) (i : Nat) :
    List (List Tok) × List QOperand × List (List Tok) × Nat :=
  match o.nearSphere with
  | none => ([], [], [], i)
  | some p =>
    let sort : List Tok :=
      [.lit "ST_Distance_Sphere(`", .ph i, .lit "`, ST_GeomFromText('POINT(",
       .ph (i + 1), .lit " ", .ph (i + 2), .lit ")')) ASC"]
    match o.maxDistance with
    | some d =>
      if d ≠ 0 then
        ([[.lit "ST_Distance_Sphere(`", .ph i, .lit "`, ST_GeomFromText('POINT(",
           .ph (i + 1), .lit " ", .ph (i + 2), .lit ")')) <= ", .ph (i + 3)]],
         [.str name, .num p.longitude, .num p.latitude, .num (d * 6371 * 1000)],
         [sort], i + 4)
      else
        ([[.lit "ST_Distance_Sphere(`", .ph i, .lit "`, ST_GeomFromText('POINT(",
           .ph (i + 1), .lit " ", .ph (i + 2), .lit ")'))"]],
         [.str name, .num p.longitude, .num p.latitude], [sort], i + 3)
    | none =>
      ([[.lit "ST_Distance_Sphere(`", .ph i, .lit "`, ST_GeomFromText('POINT(",
         .ph (i + 1), .lit " ", .ph (i + 2), .lit ")'))"]],
       [.str name, .num p.longitude, .num p.latitude], [sort], i + 3)

/-- The `$within.$box` block (lines 478-488), with the source's corner
interpolation order reproduced verbatim. -/
def stepWithin (name : String) (o : OpObj) (i : Nat) :
    List (List Tok) × List QOperand × Nat :=
  match o.within with
  | none => ([], [], i)
  | some w =>
    match w.box with
    | none => ([], [], i)
    | some (p1, p2) =>
      let left := p1.longitude
      let bottom := p1.latitude
      let right := p2.longitude
      let top := p2.latitude
      let boxStr := "(" ++ toString left ++ " " ++ toString bottom ++ ", " ++
        toString left ++ " " ++ toString top ++ ", " ++ toString top ++ " " ++
        toString right ++ ", " ++ toString right ++ " " ++ toString bottom ++ ", " ++
        toString left ++ " " ++ toString bottom ++ ")"
      ([[.lit "MBRCovers(ST_GeomFromText('Polygon(", .ph i, .lit ")'), `",
         .ph (i + 1), .lit "`)"]],
       [.str boxStr, .str name], i + 2)

/-- Latitude of a maybe-point (`polygon[k].latitude`; `none` = undefined). -/
def polyLat : Option PolyPoint → Option Int
  | some (.geo g) => some g.latitude
  | _ => none

/-- Longitude of a maybe-point. -/
def polyLon : Option PolyPoint → Option Int
  | some (.geo g) => some g.longitude
  | _ => none

/-- The point validation and rendering loop of `$geoWithin` (lines
508-515): each element must be a tagged GeoPoint within range. -/
def polyPointsStr : List PolyPoint → Except Err (List String)
  | [] => .ok []
  | .notGeo :: _ => .error (.invalidJson "bad $geoWithin value")
  | .geo g :: rest =>
    if g.latitude < -90 ∨ g.latitude > 90 ∨ g.longitude < -180 ∨ g.longitude > 180 then
      .error .geoRange
    else do
      let tail ← polyPointsStr rest
      .ok ((toString g.longitude ++ " " ++ toString g.latitude) :: tail)

/-- The `$geoWithin.$polygon` block (lines 490-520): array check, minimum
size, auto-closing of an open ring (an in-place push on the query's array),
then per-point validation. -/
def stepGeoWithin (name : String) (o : OpObj) (i : Nat) :
    Except Err (List (List Tok) × List QOperand × Nat) :=
  match o.geoWithin with
  | none => .ok ([], [], i)
  | some gd =>
    match gd.polygon with
    | none => .ok ([], [], i)
    | some .notArr =>
      .error (.invalidJson "bad $geoWithin value; $polygon should contain at least 3 GeoPoints")
    | some (.arr pts) =>
      if pts.length < 3 then
        .error (.invalidJson "bad $geoWithin value; $polygon should contain at least 3 GeoPoints")
      else
        let closed :=
          if polyLat pts.head? ≠ polyLat pts.getLast? ∨
              polyLon pts.head? ≠ polyLon pts.getLast? then
            pts ++ pts.head?.toList
          else pts
        match polyPointsStr closed with
        | .error e => .error e
        | .ok strs =>
          .ok ([[.lit "MBRCovers(ST_GeomFromText('Polygon(", .ph i, .lit ")'), `",
                 .ph (i + 1), .lit "`)"]],
               [.str ("(" ++ String.intercalate ", " strs ++ ")"), .str name], i + 2)

/-- The `$regex` block (lines 522-540): truthiness-guarded, extended-mode
stripping for an `x` option, then the regex literalizer. -/
def stepRegex (name : String) (o : OpObj) (i : Nat) :
    List (List Tok) × List QOperand × Nat :=
  match o.regex with
  | none => ([], [], i)
  | some r =>
    if r = "" then ([], [], i)
    else
      let r1 := match o.options with
        | some opts => if opts ≠ "" && opts.contains 'x' then
            String.mk (removeWhiteSpace r.data)
          else r
        | none => r
      let r2 := String.mk (processRegexPattern r1.data)
      ([[.lit "`", .ph i, .lit "` REGEXP '", .ph (i + 1), .lit "'"]],
       [.str name, .str r2], i + 2)

/-- The tagged-value blocks (`__type` Pointer/Date/GeoPoint, lines
542-564). -/
def stepTType (isArr : Bool) (name : String) (o : OpObj) (i : Nat) :
    List (List Tok) × List QOperand × Nat :=
  match o.ttype with
  | none => ([], [], i)
  | some (.pointer oid) =>
    if isArr then
      ([[.lit "JSON_CONTAINS(`", .ph i, .lit "`, '", .ph (i + 1), .lit "') = 1"]],
       [.str name, .str (jsonList [.ptr oid])], i + 2)
    else
      ([[.ph i, .lit " = '", .ph (i + 1), .lit "'"]], [.str name, .str oid], i + 2)
  | some (.date iso) =>
    ([[.lit "`", .ph i, .lit "` = '", .ph (i + 1), .lit "'"]],
     [.str name, toMySQLValue (.date iso)], i + 2)
  | some (.geoPoint p) =>
    ([[.lit "`", .ph i, .lit "` = ST_GeomFromText('POINT(", .ph (i + 1), .lit " ",
       .ph (i + 2), .lit ")')"]],
     [.str name, .num p.longitude, .num p.latitude], i + 3)

/-- One comparator block of the `ParseToMySQLComparator` loop (lines
566-573). -/
def oneCmp (name : String) (opv : Option QOperand) (sym : String) (i : Nat) :
    List (List Tok) × List QOperand × Nat :=
  match opv with
  | some v =>
    if truthy v then
      ([[.lit "`", .ph i, .lit ("` " ++ sym ++ " '"), .ph (i + 1), .lit "'"]],
       [.str name, toMySQLValue v], i + 2)
    else ([], [], i)
  | none => ([], [], i)

/-- The four comparators in the object-key order `$gt, $lt, $gte, $lte`. -/
def stepCmps (name : String) (o : OpObj) (i : Nat) :
    List (List Tok) × List QOperand × Nat :=
  let (p1, v1, i1) := oneCmp name o.gt ">" i
  let (p2, v2, i2) := oneCmp name o.lt "<" i1
  let (p3, v3, i3) := oneCmp name o.gte ">=" i2
  let (p4, v4, i4) := oneCmp name o.lte "<=" i3
  (p1 ++ (p2 ++ (p3 ++ p4)), v1 ++ (v2 ++ (v3 ++ v4)), i4)

/-- The output of the per-field loop: patterns, values, sorts, next index. -/
abbrev FieldsOut := List (List Tok) × List QOperand × List (List Tok) × Nat

/-- The sequential operator blocks of the per-field loop (part_000 lines
311-573) after the `if/else-if` chain: `$ne` (whose null sub-case
`continue`s, reported by the final flag), then `$eq`, `$in`/`$nin`,
`$all`, `$exists`, `$text`, `$nearSphere`, `$within`, `$geoWithin`,
`$regex`, the tagged values and the comparators, threading the
placeholder index. -/
def fieldOps (isArr cs : Bool) (name : String) (o : OpObj) (i : Nat) :
    Except Err (List (List Tok) × List QOperand × List (List Tok) × Nat × Bool) := do
  let (pNe, vNe, iNe, exitNe) := stepNe isArr name o i
  if exitNe then
    .ok (pNe, vNe, [], iNe, true)
  else
    let (pEq, vEq, iEq) := stepEq name o iNe
    let (pIn, vIn, iIn) := stepInNin isArr cs name o iEq
    let (pAll, vAll, iAll) := stepAll isArr name o iIn
    let (pEx, vEx, iEx) := stepExists name o iAll
    let (pTx, vTx, iTx) ← stepText name o iEx
    let (pNs, vNs, sNs, iNs) := stepNear name o iTx
    let (pWi, vWi, iWi) := stepWithin name o iNs
    let (pGw, vGw, iGw) ← stepGeoWithin name o iWi
    let (pRe, vRe, iRe) := stepRegex name o iGw
    let (pTt, vTt, iTt) := stepTType isArr name o iRe
    let (pCm, vCm, iCm) := stepCmps name o iTt
    .ok (pNe ++ (pEq ++ (pIn ++ (pAll ++ (pEx ++ (pTx ++ (pNs ++ (pWi ++
        (pGw ++ (pRe ++ (pTt ++ pCm)))))))))),
      vNe ++ (vEq ++ (vIn ++ (vAll ++ (vEx ++ (vTx ++ (vNs ++ (vWi ++
        (vGw ++ (vRe ++ (vTt ++ vCm)))))))))),
      sNs, iCm, false)

mutual
/-- The field loop of `buildWhereClause` (part_000 lines 245-578). -/
def whereFields (sch : Schema) : Query → Nat → Except Err FieldsOut
  | .nil, i => .ok ([], [], [], i)
  | .cons name v rest, i => do
    let (p1, v1, s1, i1) ← processField sch name v i
    let (p2, v2, s2, i2) ← whereFields sch rest i1
    .ok (p1 ++ p2, v1 ++ v2, s1 ++ s2, i2)
termination_by structural q _ => q

/-- One iteration of the field loop: the skip for a missing field with
`$exists: false`; the `if/else-if` chain (dotted path, `null`, bare
scalars, `$or`/`$and`); then the operator blocks; then the
no-fragment-added check that raises the unsupported-shape error.  A `null`
value behind a dotted name reaches the operator blocks, where the property
read on `null` is a TypeError. -/
def processField (sch : Schema) (name : String) (v : QVal) (i : Nat) :
    Except Err FieldsOut :=
  let fields := sch.fields.getD []
  let fdef := jsGet fields name
  let isArrayField := fdef.any (fun d => d.type == "Array")
  if fdef.isNone && (match v with | .vop o => o.exs == some false | _ => false) then
    .ok ([], [], [], i)
  else do
    let (pA, vA, iA, contA) ← (
      if name.contains '.' then
        let nm := dotName (name.splitOn ".")
        match v with
        | .vnull => Except.ok ([[Tok.lit ("`" ++ nm ++ "` IS NULL")]],
            ([] : List QOperand), i, false)
        | _ => Except.ok ([[Tok.lit (nm ++ " = '" ++ jsToStringQ v ++ "'")]], [], i, false)
      else
        match v with
        | .vnull =>
          Except.ok ([[Tok.lit "`", Tok.ph i, Tok.lit "` IS NULL"]],
            [QOperand.str name], i + 1, true)
        | .vstr s =>
          Except.ok ([[Tok.lit "`", Tok.ph i, Tok.lit "` = '", Tok.ph (i + 1), Tok.lit "'"]],
            [QOperand.str name, QOperand.str s], i + 2, false)
        | .vbool b =>
          Except.ok ([[Tok.lit "`", Tok.ph i, Tok.lit "` = ", Tok.ph (i + 1)]],
            [QOperand.str name, QOperand.bool b], i + 2, false)
        | .vnum n =>
          Except.ok ([[Tok.lit "`", Tok.ph i, Tok.lit "` = ", Tok.ph (i + 1)]],
            [QOperand.str name, QOperand.num n], i + 2, false)
        | .vsub qs =>
          if name = "$or" ∨ name = "$and" then do
            let (clauses, clauseValues, i2) ← whereSubs sch qs i
            let sep := if name = "$or" then " OR " else " AND "
            Except.ok ([Tok.lit "(" :: (joinFrags sep clauses ++ [Tok.lit ")"])],
              clauseValues, i2, false)
          else Except.ok ([], [], i, false)
        | .vop _ =>
          if name = "$or" ∨ name = "$and" then Except.error Err.typeErr
          else Except.ok ([], [], i, false))
    if contA then
      .ok (pA, vA, [], iA)
    else
      match v with
      | .vnull => .error .typeErr
      | _ => do
        let contentsString := fdef.any (fun d => d.contentsType == some "String")
        let (pB, vB, sB, iB, exitNe) ← fieldOps isArrayField contentsString name (opOf v) iA
        if exitNe then
          .ok (pA ++ pB, vA ++ vB, sB, iB)
        else if (pA ++ pB).length = 0 then .error (.opForbidden v)
        else .ok (pA ++ pB, vA ++ vB, sB, iB)
termination_by structural v

/-- The `$or`/`$and` sub-document loop (lines 296-305): compile each
sub-document at the running index (augmenting the schema again, join the
fragments, map `transformValue` — the sub-call is a full
`buildWhereClause`), skip empty sub-patterns, advance by the number of
values of each kept clause; sub-sorts are discarded. -/
def whereSubs (sch : Schema) : QueryL → Nat → Except Err (List (List Tok) × List QOperand × Nat)
  | .lnil, i => .ok ([], [], i)
  | .lcons q rest, i => do
    let (pats, vals, _sorts, _i) ← whereFields (toMySQLSchema sch) q i
    let pattern := joinFrags " AND " pats
    let values := vals.map transformValue
    if pattern.length > 0 then do
      let (cs, cvs, i2) ← whereSubs sch rest (i + values.length)
      .ok (pattern :: cs, values ++ cvs, i2)
    else
      whereSubs sch rest i
termination_by structural qs _ => qs
end

/-- The compiled fragment `buildWhereClause` returns. -/
structure WhereResult where
  pattern : List Tok
  values : List QOperand
  sorts : List (List Tok)
deriving DecidableEq, Repr

/-- `buildWhereClause` (part_000 lines 239-581): augment the schema (in
place in the source), run the field loop, join with ` AND `, map
`transformValue` over the values. -/
def buildWhereClause (schema : Schema) (query : Query) (index : Nat) :
    Except Err WhereResult :=
  (whereFields (toMySQLSchema schema) query index).map
    (fun r => ⟨joinFrags " AND " r.1, r.2.1.map transformValue, r.2.2.1⟩)

/-- The state of the caller's schema object after a `buildWhereClause`
call: the source's `schema = toMySQLSchema(schema)` (line 244) assigns
into the passed object, so the caller observes the augmented schema. -/
def buildWhereClausePostSchema (schema : Schema) : Schema := toMySQLSchema schema

/-! ## Update documents -/

/-- An update field value: JSON scalars, the `undefined` tombstone
`handleDotFields` writes for a deleted dotted path, plain objects and
arrays, the five atomic `__op` objects, the tagged values, and a JS `Date`
instance. -/
inductive UVal where
  | null
  | str (s : String)
  | bool (b : Bool)
  | num (n : Int)
  | undef
  | obj (fs : List (String × UVal))
  | arr (xs : List UVal)
  | inc (amount : Int)
  | addOp (objects : List UVal)
  | removeOp (objects : List UVal)
  | addUniqueOp (objects : List UVal)
  | delOp
  | ptr (objectId : String)
  | dateTag (iso : String)
  | fileTag (name : String)
  | geoTag (p : GeoPointV)
  | relationTag
  | jsDate (iso : String)

/-- JS falsiness of an update value. -/
def uvalFalsy : UVal → Bool
  | .null => true
  | .undef => true
  | .bool b => !b
  | .num n => n == 0
  | .str s => s == ""
  | _ => false

/-- `v === null` on an update value. -/
def isNullU : UVal → Bool
  | .null => true
  | _ => false

/-- `v.__op === 'Delete'` on an update value. -/
def isDelOpU : UVal → Bool
  | .delOp => true
  | _ => false

/-- `typeof v === 'object'` (true for `null` and every object shape). -/
def uTypeofObject : UVal → Bool
  | .str _ => false
  | .bool _ => false
  | .num _ => false
  | .undef => false
  | _ => true

/-- Whether `v.__op` is truthy (one of the five atomic operations). -/
def hasOpU : UVal → Bool
  | .inc _ => true
  | .addOp _ => true
  | .removeOp _ => true
  | .addUniqueOp _ => true
  | .delOp => true
  | _ => false

mutual
/-- `JSON.stringify` of an update value; `none` is the `undefined` result
for the tombstone.  Objects keep property order, keys with `undefined`
values are omitted, `undefined` array elements encode as `null`, a `Date`
encodes as its ISO text. -/
def jsonStrV : UVal → Option String
  | .undef => none
  | .null => some "null"
  | .str s => some ("\"" ++ jsonEscape s ++ "\"")
  | .bool b => some (if b then "true" else "false")
  | .num n => some (toString n)
  | .obj fs => some ("\x7b" ++ String.intercalate "," (jsonStrFields fs) ++ "\x7d")
  | .arr xs => some ("[" ++ String.intercalate "," (jsonStrElems xs) ++ "]")
  | .inc a => some ("\x7b\"__op\":\"Increment\",\"amount\":" ++ toString a ++ "\x7d")
  | .addOp objs =>
    some ("\x7b\"__op\":\"Add\",\"objects\":[" ++
      String.intercalate "," (jsonStrElems objs) ++ "]\x7d")
  | .removeOp objs =>
    some ("\x7b\"__op\":\"Remove\",\"objects\":[" ++
      String.intercalate "," (jsonStrElems objs) ++ "]\x7d")
  | .addUniqueOp objs =>
    some ("\x7b\"__op\":\"AddUnique\",\"objects\":[" ++
      String.intercalate "," (jsonStrElems objs) ++ "]\x7d")
  | .delOp => some "\x7b\"__op\":\"Delete\"\x7d"
  | .ptr o => some ("\x7b\"__type\":\"Pointer\",\"objectId\":\"" ++ jsonEscape o ++ "\"\x7d")
  | .dateTag iso => some ("\x7b\"__type\":\"Date\",\"iso\":\"" ++ jsonEscape iso ++ "\"\x7d")
  | .fileTag n => some ("\x7b\"__type\":\"File\",\"name\":\"" ++ jsonEscape n ++ "\"\x7d")
  | .geoTag p =>
    some ("\x7b\"__type\":\"GeoPoint\",\"longitude\":" ++ toString p.longitude ++
      ",\"latitude\":" ++ toString p.latitude ++ "\x7d")
  | .relationTag => some "\x7b\"__type\":\"Relation\"\x7d"
  | .jsDate iso => some ("\"" ++ jsonEscape iso ++ "\"")

/-- The encoded entries of an object. -/
def jsonStrFields : List (String × UVal) → List String
  | [] => []
  | (k, v) :: rest =>
    match jsonStrV v with
    | none => jsonStrFields rest
    | some s => ("\"" ++ jsonEscape k ++ "\":" ++ s) :: jsonStrFields rest

/-- The encoded elements of an array. -/
def jsonStrElems : List UVal → List String
  | [] => []
  | v :: rest => (jsonStrV v).getD "null" :: jsonStrElems rest
end

/-- `JSON.stringify` as interpolated into a template literal (an
`undefined` result prints as the text `undefined`). -/
def jsonStrD (v : UVal) : String := (jsonStrV v).getD "undefined"

/-- Template-literal coercion of an update value; only primitives reach
the call sites (the `typeof === 'object'` guard routes objects elsewhere). -/
def jsToStringU : UVal → String
  | .str s => s
  | .bool b => if b then "true" else "false"
  | .num n => toString n
  | .null => "null"
  | .undef => "undefined"
  | _ => "[object Object]"

/-- Property read on an update value (`fieldValue[c]`); non-objects have
no modelled properties. -/
def uGet : UVal → String → Option UVal
  | .obj fs, c => jsGet fs c
  | _, _ => none

/-- Property delete on an update value (`delete fieldValue[key]`). -/
def uDel : UVal → String → UVal
  | .obj fs, c => .obj (jsDelete fs c)
  | v, _ => v

/-- The inner walk of `handleDotFields` (part_000 lines 124-131): at each
component, `currentObj[next] = currentObj[next] || \x7b\x7d`, assigning the
value at the last one.  Writing through a truthy non-object is the
strict-mode TypeError (arrays and tagged objects at an intermediate key are
not modelled further). -/
def setPath : List (String × UVal) → List String → UVal → Except Err (List (String × UVal))
  | fs, [], _ => .ok fs
  | fs, [last], value => .ok (jsSet fs last value)
  | fs, next :: more, value => do
    let inner ← match jsGet fs next with
      | none => Except.ok ([] : List (String × UVal))
      | some w =>
        if uvalFalsy w then Except.ok ([] : List (String × UVal))
        else match w with
          | .obj gs => Except.ok gs
          | _ => Except.error Err.typeErr
    let newInner ← setPath inner more value
    .ok (jsSet fs next (.obj newInner))

/-- One dotted key of `handleDotFields` (lines 113-133): split the name,
turn a `__op: Delete` value into the `undefined` tombstone, ensure the
head container, write through the path, delete the dotted key. -/
def handleDotOne (st : List (String × UVal)) (k : String) :
    Except Err (List (String × UVal)) := do
  let components := k.splitOn "."
  match components with
  | [] => .ok st
  | first :: rest => do
    let value0 := (jsGet st k).getD .undef
    let value := if !uvalFalsy value0 && isDelOpU value0 then .undef else value0
    let inner ← match jsGet st first with
      | none => Except.ok ([] : List (String × UVal))
      | some w =>
        if uvalFalsy w then Except.ok ([] : List (String × UVal))
        else match w with
          | .obj gs => Except.ok gs
          | _ => Except.error Err.typeErr
    let newInner ← setPath inner rest value
    .ok (jsDelete (jsSet st first (.obj newInner)) k)

/-- The key loop of `handleDotFields` over the initial key snapshot. -/
def handleDotFieldsGo (st : List (String × UVal)) :
    List String → Except Err (List (String × UVal))
  | [] => .ok st
  | k :: rest => do
    let st2 ← if k.contains '.' then handleDotOne st k else pure st
    handleDotFieldsGo st2 rest

/-- `handleDotFields` (part_000 lines 111-136) as the pure image of its
in-place mutation of the update document. -/
def handleDotFields (update : List (String × UVal)) :
    Except Err (List (String × UVal)) :=
  handleDotFieldsGo update (update.map Prod.fst)

/-- The provider of an `_auth_data_<provider>` key
(`/^_auth_data_([a-zA-Z0-9_]+)$/`). -/
def authProvider (k : String) : Option String :=
  if "_auth_data_".isPrefixOf k then
    let rest := k.drop 11
    if rest ≠ "" && rest.data.all (fun c => isAlnum c || c = '_') then some rest
    else none
  else none

/-- The auth-data folding loop of `transformUpdate` (lines 593-602):
delete each `_auth_data_<p>` key and store its value under
`authData[p]`. -/
def foldAuthDataGo (st : List (String × UVal)) :
    List String → Except Err (List (String × UVal))
  | [] => .ok st
  | k :: rest => do
    let st2 ← match authProvider k with
      | none => pure st
      | some provider => do
        let value := (jsGet st k).getD .undef
        let st := jsDelete st k
        let ad ← match jsGet st "authData" with
          | none => Except.ok ([] : List (String × UVal))
          | some w =>
            if uvalFalsy w then Except.ok ([] : List (String × UVal))
            else match w with
              | .obj gs => Except.ok gs
              | _ => Except.error Err.typeErr
        pure (jsSet st "authData" (.obj (jsSet ad provider value)))
    foldAuthDataGo st2 rest

/-- The auth-data folding pass over the initial key snapshot. -/
def foldAuthData (update : List (String × UVal)) :
    Except Err (List (String × UVal)) :=
  foldAuthDataGo update (update.map Prod.fst)

/-- `formatDateToMySQL` as called from the `updatedAt`/`finishedAt` update
branch: on a string it yields the formatted string, on a JS `Date` the
encode round-trip yields its ISO text; a tagged Date object (truthy
`.iso`) makes the source reformat an invalid-date encode and crash, and
the remaining shapes are modelled as the same failure (a numeric epoch,
which JS would format, is out of scope). -/
def formatDateToMySQLU : UVal → Except Err UVal
  | .str s => .ok (.str (formatDateToMySQL s))
  | .jsDate iso => .ok (.str (formatDateToMySQL iso))
  | _ => .error .typeErr

/-- The `authData` provider reduce (lines 610-634): `generate` ignores its
accumulator, so only the last provider's `JSON_SET` survives in the text,
while every provider's key and value are pushed. -/
def authFold (fs : List (String × UVal)) (k : Nat) (lastFrag : List Tok) :
    List Tok × List UVal × Nat :=
  match fs with
  | [] => (lastFrag, [], k)
  | (key, value) :: rest =>
    let frag : List Tok :=
      [.lit "JSON_SET(COALESCE(`authData`, '\x7b\x7d'), '$.", .ph k,
       .lit "', CAST('", .ph (k + 1), .lit "' AS JSON))"]
    let v2 : UVal :=
      if uvalFalsy value then value
      else if isDelOpU value then .null
      else .str (jsonStrD value)
    let (lf, vs, k2) := authFold rest (k + 2) frag
    (lf, .str key :: v2 :: vs, k2)

/-- The element loop of the `Remove` branch (lines 647-656). -/
def removeFold (name : String) (objs : List UVal) (i : Nat) :
    List (List Tok) × List UVal × Nat :=
  match objs with
  | [] => ([], [], i)
  | ob :: rest =>
    let frag : List Tok :=
      [.lit "`", .ph i, .lit "` = JSON_REMOVE(`", .ph i,
       .lit "`, REPLACE(JSON_SEARCH(COALESCE(`", .ph i, .lit "`,'[]'), 'one', '",
       .ph (i + 1), .lit "'),'\"',''))"]
    let v2 : UVal := if uTypeofObject ob then .str (jsonStrD ob) else ob
    let (ps, vs, i2) := removeFold name rest (i + 2)
    (frag :: ps, .str name :: v2 :: vs, i2)

/-- The element loop of the `AddUnique` branch (lines 657-666). -/
def addUniqueFold (name : String) (objs : List UVal) (i : Nat) :
    List (List Tok) × List UVal × Nat :=
  match objs with
  | [] => ([], [], i)
  | ob :: rest =>
    let frag : List Tok :=
      [.lit "`", .ph i, .lit "` = if (JSON_CONTAINS(`", .ph i, .lit "`, '",
       .ph (i + 1), .lit "') = 0, JSON_MERGE(`", .ph i, .lit "`,'", .ph (i + 1),
       .lit "'),`", .ph i, .lit "`)"]
    let v2 : UVal := if uTypeofObject ob then .str (jsonStrD ob) else ob
    let (ps, vs, i2) := addUniqueFold name rest (i + 2)
    (frag :: ps, .str name :: v2 :: vs, i2)

/-- The increment sub-patterns of the Object branch (lines 746-756):
amounts are read from the merged object after the replace deletions and
inlined into the text; a missing sibling is the property read on
`undefined`, a TypeError. -/
def incParts (v2 : UVal) (i : Nat) : List String → Except Err (List (List Tok))
  | [] => .ok []
  | c :: rest => do
    let amount ← match uGet v2 c with
      | some (.inc a) => Except.ok (toString a)
      | some _ => Except.ok "undefined"
      | none => Except.error Err.typeErr
    let tail ← incParts v2 i rest
    .ok ([Tok.lit ("'$." ++ c ++ "', COALESCE(`"), Tok.ph i,
          Tok.lit ("`->>'$." ++ c ++ "','0') + " ++ amount)] :: tail)

/-- Second component of a two-component dotted key under `fieldName`. -/
def dottedSnd (fieldName k : String) : Option String :=
  match k.splitOn "." with
  | [h, t] => if h = fieldName then some t else none
  | _ => none

/-- The Object-typed-field branch of `transformUpdate` (lines 706-781):
set/replace/increment/delete key groups computed from the pre-flatten
snapshot, patterns pushed in the source's fixed order; `originalUpdate[k].__op`
on a `null` value is a TypeError. -/
def objectBranch (orig : List (String × UVal)) (name : String) (v : UVal) (i : Nat) :
    Except Err (List (List Tok) × List UVal × Nat) := do
  if orig.any (fun kv => isNullU kv.2) then
    .error .typeErr
  else
    let keysToSet := (orig.filter (fun kv =>
      !hasOpU kv.2 && !(kv.1.contains '.') && kv.1 ≠ "updatedAt")).map Prod.fst
    let json0 := jsonStrD v
    let setPatternStr :=
      String.intercalate "," (keysToSet.map (fun _ => "CAST('" ++ json0 ++ "' AS JSON)"))
    let keysToReplace := (orig.filter (fun kv => !hasOpU kv.2)).filterMap
      (fun kv => dottedSnd name kv.1)
    let replacePatternStr := String.intercalate " || " (keysToReplace.map (fun c =>
      match uGet v c with
      | some w =>
        if uTypeofObject w then "'$." ++ c ++ "', CAST('" ++ jsonStrD w ++ "' AS JSON)"
        else "'$." ++ c ++ "', '" ++ jsToStringU w ++ "'"
      | none => "'$." ++ c ++ "', 'undefined'"))
    let v2 := keysToReplace.foldl uDel v
    let keysToIncrement := (orig.filter (fun kv =>
      match kv.2 with | .inc _ => true | _ => false)).filterMap
      (fun kv => dottedSnd name kv.1)
    let incFrags ← incParts v2 i keysToIncrement
    let v3 := keysToIncrement.foldl uDel v2
    let keysToDelete := (orig.filter (fun kv => isDelOpU kv.2)).filterMap
      (fun kv => dottedSnd name kv.1)
    let nDel := keysToDelete.length
    let delPat : List Tok :=
      if nDel > 0 then [.lit "'$.", .ph (i + 1 + (nDel - 1)), .lit "'"]
      else [.lit ", "]
    let pats : List (List Tok) :=
      (if nDel > 0 then
        [Tok.lit "`" :: Tok.ph i :: Tok.lit "` = JSON_REMOVE(`" :: Tok.ph i ::
          Tok.lit "`, " :: (delPat ++ [Tok.lit ")"])]
       else []) ++
      (if keysToIncrement.length > 0 then
        [Tok.lit "`" :: Tok.ph i :: Tok.lit "` = JSON_SET(COALESCE(`" :: Tok.ph i ::
          Tok.lit "`, '\x7b\x7d'), " :: (joinFrags " || " incFrags ++ [Tok.lit ")"])]
       else []) ++
      (if keysToReplace.length > 0 then
        [[Tok.lit "`", Tok.ph i,
          Tok.lit ("` = JSON_SET(COALESCE(`"), Tok.ph i,
          Tok.lit ("`, '\x7b\x7d'), " ++ replacePatternStr ++ ")")]]
       else []) ++
      (if keysToSet.length > 0 then
        [[Tok.lit "`", Tok.ph i, Tok.lit ("` = " ++ setPatternStr)]]
       else [])
    .ok (pats, UVal.str name :: (keysToDelete.map UVal.str ++ [UVal.str (jsonStrD v3)]),
         i + 2 + nDel)

/-- One iteration of the `transformUpdate` field loop (lines 604-791): the
`if/else-if` dispatch in source order. -/
def processUpd (sch : Schema) (orig : List (String × UVal)) (name : String)
    (v : UVal) (i : Nat) : Except Err (List (List Tok) × List UVal × Nat) :=
  if isNullU v then
    .ok ([[Tok.ph i, .lit " = NULL"]], [.str name], i + 1)
  else if name = "authData" then
    match v with
    | .obj fs =>
      let (lastFrag, vs, i2) := authFold fs (i + 1) [Tok.ph i]
      .ok ([Tok.ph i :: Tok.lit " = " :: lastFrag],
           UVal.str "`authData`" :: vs, i2)
    | _ => .error .typeErr
  else
    match v with
    | .undef => .error .typeErr
    | .inc amount =>
      .ok ([[.lit "`", .ph i, .lit "` = COALESCE(`", .ph i, .lit "`, 0) + ", .ph (i + 1)]],
           [.str name, .num amount], i + 2)
    | .addOp objects =>
      .ok ([[.lit "`", .ph i, .lit "`= JSON_ARRAY_INSERT(COALESCE(`", .ph i,
             .lit "`, '[]'), CONCAT('$[',JSON_LENGTH(`", .ph i, .lit "`),']'), '",
             .ph (i + 1), .lit "')"]],
           [.str name, .str (jsonStrD (.arr objects))], i + 2)
    | .delOp =>
      .ok ([[.lit "`", .ph i, .lit "` = ", .phRaw (i + 1)]], [.str name, .null], i + 2)
    | .removeOp objects =>
      .ok (removeFold name objects i)
    | .addUniqueOp objects =>
      .ok (addUniqueFold name objects i)
    | _ =>
      if name = "updatedAt" ∨ name = "finishedAt" then do
        let d ← formatDateToMySQLU v
        .ok ([[.lit "`", .ph i, .lit "` = '", .ph (i + 1), .lit "'"]],
             [.str name, d], i + 2)
      else
        match v with
        | .str s =>
          .ok ([[.lit "`", .ph i, .lit "` = '", .ph (i + 1), .lit "'"]],
               [.str name, .str s], i + 2)
        | .bool b =>
          .ok ([[.lit "`", .ph i, .lit "` = ", .ph (i + 1)]], [.str name, .bool b], i + 2)
        | .ptr oid =>
          .ok ([[.lit "`", .ph i, .lit "` = '", .ph (i + 1), .lit "'"]],
               [.str name, .str oid], i + 2)
        | .dateTag iso =>
          .ok ([[.lit "`", .ph i, .lit "` = '", .ph (i + 1), .lit "'"]],
               [.str name, if iso = "" then .null else .str (formatDateToMySQL iso)], i + 2)
        | .jsDate iso =>
          .ok ([[.lit "`", .ph i, .lit "` = '", .ph (i + 1), .lit "'"]],
               [.str name, .jsDate iso], i + 2)
        | .fileTag fn =>
          .ok ([[.lit "`", .ph i, .lit "` = '", .ph (i + 1), .lit "'"]],
               [.str name, .str fn], i + 2)
        | .geoTag p =>
          .ok ([[.lit "`", .ph i, .lit "` = POINT(", .phRaw (i + 1), .lit ", ",
                 .phRaw (i + 2), .lit ")"]],
               [.str name, .num p.longitude, .num p.latitude], i + 3)
        | .relationTag => .ok ([], [], i)
        | .num n =>
          .ok ([[.lit "`", .ph i, .lit "` = ", .phRaw (i + 1)]], [.str name, .num n], i + 2)
        | w =>
          match sch.fields with
          | none => .error .typeErr
          | some sfs =>
            if (jsGet sfs name).any (fun d => d.type == "Object") then
              objectBranch orig name w i
            else
              match w with
              | .arr xs =>
                if (jsGet sfs name).any (fun d => d.type == "Array") then
                  .ok ([[.ph i, .lit " = '", .ph (i + 1), .lit "'"]],
                       [.str name, .str (jsonStrD (.arr xs))], i + 2)
                else .error (.updForbidden (jsonStrD w))
              | _ => .error (.updForbidden (jsonStrD w))

/-- The field loop of `transformUpdate`. -/
def processUpdFields (sch : Schema) (orig : List (String × UVal)) :
    List (String × UVal) → Nat → Except Err (List (List Tok) × List UVal × Nat)
  | [], i => .ok ([], [], i)
  | (name, v) :: rest, i => do
    let (p1, v1, i1) ← processUpd sch orig name v i
    let (p2, v2, i2) ← processUpdFields sch orig rest i1
    .ok (p1 ++ p2, v1 ++ v2, i2)

/-- The result of `transformUpdate`: comma-joined assignments, the next
placeholder index, and the values. -/
structure UpdateResult where
  pattern : List Tok
  index : Nat
  values : List UVal

/-- `transformUpdate` (part_000 lines 583-793): snapshot the update,
flatten dotted keys in place, fold `_auth_data_` keys, then compile every
field from index 2.  A failing field aborts the whole call (the source
returns the rejection from inside the loop). -/
def transformUpdate (sch : Schema) (update : List (String × UVal)) :
    Except Err UpdateResult := do
  let originalUpdate := update
  let u1 ← handleDotFields update
  let u2 ← foldAuthData u1
  let (pats, vals, i2) ← processUpdFields sch originalUpdate u2 2
  .ok ⟨joinFrags "," pats, i2, vals⟩

/-! ## Error-code handling of the read/write paths
(`MySQLStorageAdapter.js`) -/

/-- `'42P01'`: the Postgres SQLSTATE for a missing relation (line 7). -/
def PostgresRelationDoesNotExistError : String := "42P01"

/-- `'ER_NO_SUCH_TABLE'`: the mysql2 driver's code for a missing table
(line 8). -/
def MySQLRelationDoesNotExistError : String := "ER_NO_SUCH_TABLE"

/-- The catch of `find` (lines 1286-1292): a query on a non-existing table
resolves with no rows (`return [[]]`); any other backend code is
re-raised. -/
def findOnError (code : String) : Except String (List Unit) :=
  if code = MySQLRelationDoesNotExistError then .ok [] else .error code

/-- The catch of `count` (lines 1396-1401): resolves `0` only for the
Postgres SQLSTATE `'42P01'`; any other code — including the mysql2
backend's `'ER_NO_SUCH_TABLE'` — is re-raised. -/
def countOnError (code : String) : Except String Nat :=
  if code = PostgresRelationDoesNotExistError then .ok 0 else .error code

/-- `deleteObjectsByQuery` (lines 1017-1037) installs no error-code
handler: a backend error surfaces unchanged to the caller. -/
def deleteObjectsByQueryOnError (code : String) : Except String Nat :=
  .error code

/-! ## Predicates used by the statements -/

/-- Truthiness failure of an optional comparison operand (the guard
`if (fieldValue[cmp])` skips these). -/
def falsyCmp : Option QOperand → Bool
  | some v => !truthy v
  | none => true

/-- An operator object none of whose guarded reads fires a branch: the
behaviour of a value like `\x7b$unknownOp: 1\x7d`, whose keys the compiler
never reads. -/
def inertOp (o : OpObj) : Bool :=
  o.ne.isNone && falsyCmp o.eq && o.qin.isNone && o.nin.isNone && o.all.isNone &&
    o.exs.isNone && o.text.isNone && o.nearSphere.isNone &&
    (match o.within with | some w => w.box.isNone | none => true) &&
    (match o.geoWithin with | some g => g.polygon.isNone | none => true) &&
    (match o.regex with | some r => r == "" | none => true) &&
    o.ttype.isNone && falsyCmp o.gt && falsyCmp o.lt && falsyCmp o.gte && falsyCmp o.lte

/-- A selector for the five truthiness-guarded comparison operators. -/
inductive CmpSel where
  | eq
  | gt
  | lt
  | gte
  | lte
deriving DecidableEq, Repr

/-- The operator object carrying exactly one comparison operator. -/
def mkCmp : CmpSel → QOperand → OpObj
  | .eq, v => { eq := some v }
  | .gt, v => { gt := some v }
  | .lt, v => { lt := some v }
  | .gte, v => { gte := some v }
  | .lte, v => { lte := some v }

/-- A bare scalar value (string, boolean or number). -/
def isBareScalar : QVal → Bool
  | .vstr _ => true
  | .vbool _ => true
  | .vnum _ => true
  | _ => false

mutual
/-- Well-formedness for the placeholder-index invariant: every `$in` list
carries at most one `null` sentinel (with two or more, the source's
one-shot `allowNull` offset of the Array-of-String branch skips an
index). -/
def wfV : QVal → Bool
  | .vsub qs => wfL qs
  | .vop o =>
    match o.qin with
    | some l => l.countP (fun e => e == QOperand.null) ≤ 1
    | none => true
  | _ => true
termination_by structural v => v

/-- `wfV` over every field of a document. -/
def wfQ : Query → Bool
  | .nil => true
  | .cons _ v rest => wfV v && wfQ rest
termination_by structural q => q

/-- `wfQ` over every sub-document. -/
def wfL : QueryL → Bool
  | .lnil => true
  | .lcons q rest => wfQ q && wfL rest
termination_by structural qs => qs
end

/-! ## Concrete fixtures for the counterexamples and witnesses -/

/-- A plain two-field schema. -/
def fixSchema : Schema := ⟨"C", some [("a", ⟨"String", none⟩), ("b", ⟨"Number", none⟩)], none⟩

/-- A schema with an `Object`-typed field besides scalar ones. -/
def fixSchemaObj : Schema :=
  ⟨"C", some [("a", ⟨"Object", none⟩), ("n", ⟨"String", none⟩)], none⟩

/-- The `\x7b$unknownOp: 1\x7d`-shaped value: an object none of whose keys
the compiler reads. -/
def fixBadVal : QVal := .vop {}

/-- The placeholder-bookkeeping invariant of one compile stage: starting
at index `i` it hands back index `j` having consumed exactly one fresh
index per pushed value, the distinct placeholder indices of the pushed
fragments (in first-occurrence order) are exactly `i, i+1, ...` up to `j`,
and no pushed fragment is empty. -/
def Emits (i : Nat) (pats : List (List Tok)) (vals : List QOperand) (j : Nat) : Prop :=
  j = i + vals.length ∧
  fstDedup ((pats.map phs).flatten) = List.range' i vals.length ∧
  ∀ f ∈ pats, f ≠ []

/-! # Lemmas -/

/-! ### Association-list lemmas -/

theorem jsGet_jsSet_self {α : Type} (l : List (String × α)) (k : String) (v : α) :
    jsGet (jsSet l k v) k = some v := by
  induction l with
  | nil => simp [jsSet, jsGet]
  | cons p rest ih =>
    obtain ⟨a, b⟩ := p
    by_cases h : a = k
    · simp [jsSet, jsGet, h]
    · simp [jsSet, jsGet, h, ih]

theorem jsGet_jsSet_other {α : Type} {l : List (String × α)} {k k' : String} (v : α)
    (h : k' ≠ k) : jsGet (jsSet l k v) k' = jsGet l k' := by
  induction l with
  | nil => simp [jsSet, jsGet, Ne.symm h]
  | cons p rest ih =>
    obtain ⟨a, b⟩ := p
    by_cases ha : a = k
    · subst ha
      simp [jsSet, jsGet, Ne.symm h]
    · simp only [jsSet, if_neg ha, jsGet]
      by_cases hb : a = k'
      · simp [hb]
      · simp [hb, ih]

theorem jsSet_of_get {α : Type} {l : List (String × α)} {k : String} {v : α}
    (h : jsGet l k = some v) : jsSet l k v = l := by
  induction l with
  | nil => simp [jsGet] at h
  | cons p rest ih =>
    obtain ⟨a, b⟩ := p
    by_cases ha : a = k
    · subst ha
      simp [jsGet] at h
      simp [jsSet, h]
    · simp [jsGet, ha] at h
      simp [jsSet, ha, ih h]

theorem jsDelete_sublist {α : Type} (l : List (String × α)) (k : String) :
    List.Sublist (jsDelete l k) l := by
  induction l with
  | nil => simp [jsDelete]
  | cons p rest ih =>
    obtain ⟨a, b⟩ := p
    by_cases ha : a = k
    · simp [jsDelete, ha]
    · simpa [jsDelete, ha] using ih.cons₂ (a, b)

theorem jsGet_jsDelete_other {α : Type} {l : List (String × α)} {k k' : String}
    (h : k' ≠ k) : jsGet (jsDelete l k) k' = jsGet l k' := by
  induction l with
  | nil => simp [jsDelete]
  | cons p rest ih =>
    obtain ⟨a, b⟩ := p
    by_cases ha : a = k
    · subst ha
      simp [jsDelete, jsGet, Ne.symm h]
    · simp only [jsDelete, if_neg ha, jsGet]
      by_cases hb : a = k'
      · simp [hb]
      · simp [hb, ih]

theorem jsGet_of_not_mem {α : Type} {l : List (String × α)} {k : String}
    (h : k ∉ l.map Prod.fst) : jsGet l k = none := by
  induction l with
  | nil => simp [jsGet]
  | cons p rest ih =>
    obtain ⟨a, b⟩ := p
    simp only [List.map_cons, List.mem_cons] at h
    push_neg at h
    simp [jsGet, Ne.symm h.1, ih h.2]

theorem jsGet_jsDelete_self {α : Type} {l : List (String × α)} {k : String}
    (hnd : (l.map Prod.fst).Nodup) : jsGet (jsDelete l k) k = none := by
  induction l with
  | nil => simp [jsDelete, jsGet]
  | cons p rest ih =>
    obtain ⟨a, b⟩ := p
    simp only [List.map_cons, List.nodup_cons] at hnd
    by_cases ha : a = k
    · subst ha
      simpa [jsDelete] using jsGet_of_not_mem hnd.1
    · simp [jsDelete, ha, jsGet, ih hnd.2]

theorem nodup_jsDelete {α : Type} {l : List (String × α)} {k : String}
    (hnd : (l.map Prod.fst).Nodup) : ((jsDelete l k).map Prod.fst).Nodup :=
  ((jsDelete_sublist l k).map Prod.fst).nodup hnd

/-! # Theorems for the claims -/

/-- C2 (counterexample): `buildWhereClause` does not leave its inputs
unchanged — a successful compile of `\x7ba: "x"\x7d` leaves the caller's
schema object augmented with the implicit fields, different from the
schema that was passed. -/
theorem c2_counterexample :
    buildWhereClausePostSchema fixSchema ≠ fixSchema ∧
    (buildWhereClause fixSchema (.cons "a" (.vstr "x") .nil) 1).isOk = true := by
  constructor
  · decide
  · with_unfolding_all rfl

/-- C2 (amended): the compile call mutates the caller's schema object in
place, but only by the idempotent `toMySQLSchema` augmentation: a schema
that has already been compiled against is left unchanged by further calls,
and compiling against the augmented schema returns the same fragment as
compiling against the original. -/
theorem c2_schema_mutation_idempotent :
    (∀ s : Schema, toMySQLSchema (toMySQLSchema s) = toMySQLSchema s) ∧
    (∀ s : Schema,
      buildWhereClausePostSchema (buildWhereClausePostSchema s) = buildWhereClausePostSchema s) ∧
    (∀ (s : Schema) (q : Query) (i : Nat),
      buildWhereClause (buildWhereClausePostSchema s) q i = buildWhereClause s q i) := by
  have idem : ∀ s : Schema, toMySQLSchema (toMySQLSchema s) = toMySQLSchema s := by
    intro s
    by_cases hu : s.className = "_User"
    · simp only [toMySQLSchema, hu, if_true, Option.getD_some]
      generalize s.fields.getD [] = base
      have h1 : jsGet (jsSet (jsSet (jsSet (jsSet base "_wperm"
          (⟨"Array", some "String"⟩ : FieldDef)) "_rperm" ⟨"Array", some "String"⟩)
          "_hashed_password" ⟨"String", none⟩) "_password_history" ⟨"Array", none⟩)
          "_wperm" = some ⟨"Array", some "String"⟩ := by
        rw [jsGet_jsSet_other _ (by decide), jsGet_jsSet_other _ (by decide),
          jsGet_jsSet_other _ (by decide), jsGet_jsSet_self]
      rw [jsSet_of_get h1]
      have h2 : jsGet (jsSet (jsSet (jsSet (jsSet base "_wperm"
          (⟨"Array", some "String"⟩ : FieldDef)) "_rperm" ⟨"Array", some "String"⟩)
          "_hashed_password" ⟨"String", none⟩) "_password_history" ⟨"Array", none⟩)
          "_rperm" = some ⟨"Array", some "String"⟩ := by
        rw [jsGet_jsSet_other _ (by decide), jsGet_jsSet_other _ (by decide),
          jsGet_jsSet_self]
      rw [jsSet_of_get h2]
      have h3 : jsGet (jsSet (jsSet (jsSet (jsSet base "_wperm"
          (⟨"Array", some "String"⟩ : FieldDef)) "_rperm" ⟨"Array", some "String"⟩)
          "_hashed_password" ⟨"String", none⟩) "_password_history" ⟨"Array", none⟩)
          "_hashed_password" = some ⟨"String", none⟩ := by
        rw [jsGet_jsSet_other _ (by decide), jsGet_jsSet_self]
      rw [jsSet_of_get h3, jsSet_of_get (jsGet_jsSet_self _ _ _)]
    · simp only [toMySQLSchema, hu, if_false, Option.getD_some]
      generalize s.fields.getD [] = base
      have h1 : jsGet (jsSet (jsSet base "_wperm"
          (⟨"Array", some "String"⟩ : FieldDef)) "_rperm" ⟨"Array", some "String"⟩)
          "_wperm" = some ⟨"Array", some "String"⟩ := by
        rw [jsGet_jsSet_other _ (by decide), jsGet_jsSet_self]
      rw [jsSet_of_get h1, jsSet_of_get (jsGet_jsSet_self _ _ _)]
  refine ⟨idem, idem, fun s q i => ?_⟩
  simp only [buildWhereClause, buildWhereClausePostSchema, idem s]

/-- C6: `toParseSchema` returns the allow-all map for every action when no
permission document is supplied, the supplied map merged over the
all-denied base when one is, and a field map free of `_wperm`, `_rperm`
and (for `_User`) `_hashed_password`. -/
theorem c6_toParseSchema (cn : String) (fs : List (String × FieldDef))
    (clp : Option SparseCLPS) (hnd : (fs.map Prod.fst).Nodup) :
    (∀ r, toParseSchema ⟨cn, some fs, none⟩ = some r →
      r.classLevelPermissions.find = [("*", true)] ∧
      r.classLevelPermissions.get = [("*", true)] ∧
      r.classLevelPermissions.create = [("*", true)] ∧
      r.classLevelPermissions.update = [("*", true)] ∧
      r.classLevelPermissions.delete = [("*", true)] ∧
      r.classLevelPermissions.addField = [("*", true)]) ∧
    (∀ m r, toParseSchema ⟨cn, some fs, some { find := some m }⟩ = some r →
      r.classLevelPermissions = ⟨m, [], [], [], [], []⟩) ∧
    (∀ r m, toParseSchema ⟨cn, some fs, clp⟩ = some r → r.fields = some m →
      jsGet m "_wperm" = none ∧ jsGet m "_rperm" = none ∧
      (cn = "_User" → jsGet m "_hashed_password" = none)) := by
  refine ⟨?_, ?_, ?_⟩
  · intro r hr
    cases hcu : cn == "_User" <;>
      · simp only [toParseSchema, hcu] at hr
        cases hr
        exact ⟨rfl, rfl, rfl, rfl, rfl, rfl⟩
  · intro m r hr
    cases hcu : cn == "_User" <;>
      · simp only [toParseSchema, hcu] at hr
        cases hr
        rfl
  · intro r m hr hm
    cases hcu : cn == "_User"
    · have hcu' : ¬cn = "_User" := by
        intro h
        simp [h] at hcu
      simp only [toParseSchema, hcu] at hr
      cases hr
      simp only [ParseSchema.fields] at hm
      cases hm
      refine ⟨?_, ?_, fun h => absurd h hcu'⟩
      · rw [jsGet_jsDelete_other (by decide), jsGet_jsDelete_self hnd]
      · exact jsGet_jsDelete_self (nodup_jsDelete hnd)
    · have hcu' : cn = "_User" := eq_of_beq hcu
      simp only [toParseSchema, hcu] at hr
      cases hr
      simp only [ParseSchema.fields] at hm
      cases hm
      have hnd1 : ((jsDelete fs "_hashed_password").map Prod.fst).Nodup := nodup_jsDelete hnd
      refine ⟨?_, ?_, fun _ => ?_⟩
      · rw [jsGet_jsDelete_other (by decide), jsGet_jsDelete_self hnd1]
      · exact jsGet_jsDelete_self (nodup_jsDelete hnd1)
      · rw [jsGet_jsDelete_other (by decide), jsGet_jsDelete_other (by decide),
          jsGet_jsDelete_self hnd]

/-- C6 (witness): the sparse-permission part of `c6_toParseSchema` at a
concrete `_User` schema carrying the implicit fields, with the hypothesis
discharged and the result instantiated. -/
theorem c6_toParseSchema_witness :
    (([("x", (⟨"String", none⟩ : FieldDef)), ("_wperm", ⟨"Array", some "String"⟩),
        ("_rperm", ⟨"Array", some "String"⟩),
        ("_hashed_password", ⟨"String", none⟩)].map Prod.fst).Nodup) ∧
    (⟨"_User", some [("x", ⟨"String", none⟩)],
        ⟨[("role:admin", true)], [], [], [], [], []⟩⟩ : ParseSchema).classLevelPermissions =
      ⟨[("role:admin", true)], [], [], [], [], []⟩ :=
  ⟨by decide,
    (c6_toParseSchema "_User"
      [("x", ⟨"String", none⟩), ("_wperm", ⟨"Array", some "String"⟩),
        ("_rperm", ⟨"Array", some "String"⟩), ("_hashed_password", ⟨"String", none⟩)]
      none (by decide)).2.1 [("role:admin", true)] _ (by decide)⟩

/-- C7: the regex literalizer escapes the dot of `\Qa.b\E` (a literal
match, not a wildcard), preserves a leading `^` (anchored literal prefix
match) and a trailing `$` outside the literalization, and adds no anchor
when the pattern has neither. -/
theorem c7_regex_literalizer :
    processRegexPattern "\\Qa.b\\E".data = "a\\.b".data ∧
    processRegexPattern "^\\Qfoo\\E".data = '^' :: literalizeRegexPart "foo".data ∧
    processRegexPattern "^\\Qfoo\\E".data = "^foo".data ∧
    processRegexPattern "\\Qfoo\\E$".data = literalizeRegexPart "\\Qfoo\\E".data ++ ['$'] ∧
    processRegexPattern "\\Qfoo\\E$".data = "foo$".data ∧
    processRegexPattern "\\Qa.b\\E".data = literalizeRegexPart "\\Qa.b\\E".data ∧
    (processRegexPattern "\\Qa.b\\E".data).head? ≠ some '^' ∧
    (processRegexPattern "\\Qa.b\\E".data).getLast? ≠ some '$' := by
  refine ⟨by decide, by decide, by decide, by decide, by decide, by decide, by decide, by decide⟩

/-- C8: on the missing-table error code the backend actually reports
(`ER_NO_SUCH_TABLE` from mysql2), `find` swallows the error and resolves
with no rows, but `count` re-raises it — its catch compares against the
Postgres SQLSTATE `42P01` instead — and `deleteObjectsByQuery` (no
handler) lets it surface. -/
theorem c8_missing_table_error_paths :
    findOnError MySQLRelationDoesNotExistError = .ok [] ∧
    countOnError MySQLRelationDoesNotExistError = .error "ER_NO_SUCH_TABLE" ∧
    deleteObjectsByQueryOnError MySQLRelationDoesNotExistError = .error "ER_NO_SUCH_TABLE" ∧
    countOnError PostgresRelationDoesNotExistError = .ok 0 :=
  ⟨rfl, rfl, rfl, rfl⟩

/-! ### Inert-step lemmas: operator blocks that emit nothing -/

theorem stepEq_inert {name : String} {o : OpObj} {i : Nat}
    (h : falsyCmp o.eq = true) : stepEq name o i = ([], [], i) := by
  cases heq : o.eq with
  | none => simp [stepEq, heq]
  | some v =>
    simp only [falsyCmp, heq, Bool.not_eq_true'] at h
    simp [stepEq, heq, h]

theorem oneCmp_inert {name : String} {ov : Option QOperand} {sym : String} {i : Nat}
    (h : falsyCmp ov = true) : oneCmp name ov sym i = ([], [], i) := by
  cases ov with
  | none => simp [oneCmp]
  | some v =>
    simp only [falsyCmp, Bool.not_eq_true'] at h
    simp [oneCmp, h]

theorem stepWithin_inert {name : String} {o : OpObj} {i : Nat}
    (h : (match o.within with | some w => w.box.isNone | none => true) = true) :
    stepWithin name o i = ([], [], i) := by
  cases hw : o.within with
  | none => simp [stepWithin, hw]
  | some w =>
    simp only [hw] at h
    cases hb : w.box with
    | none => simp [stepWithin, hw, hb]
    | some p => simp [hb] at h

theorem stepGeoWithin_inert {name : String} {o : OpObj} {i : Nat}
    (h : (match o.geoWithin with | some g => g.polygon.isNone | none => true) = true) :
    stepGeoWithin name o i = .ok ([], [], i) := by
  cases hw : o.geoWithin with
  | none => simp [stepGeoWithin, hw]
  | some g =>
    simp only [hw] at h
    cases hb : g.polygon with
    | none => simp [stepGeoWithin, hw, hb]
    | some p => simp [hb] at h

theorem stepRegex_inert {name : String} {o : OpObj} {i : Nat}
    (h : (match o.regex with | some r => r == "" | none => true) = true) :
    stepRegex name o i = ([], [], i) := by
  cases hr : o.regex with
  | none => simp [stepRegex, hr]
  | some r =>
    simp only [hr, beq_iff_eq] at h
    simp [stepRegex, hr, h]

/-- C3 (counterexample): a field whose only operator is an empty `$nin`
does not compile to "no constraint, success" — the no-fragment check fires
and the call raises the unsupported-shape error. -/
theorem c3_counterexample :
    buildWhereClause fixSchema (.cons "a" (.vop { nin := some [] }) .nil) 1 =
      .error (.opForbidden (.vop { nin := some [] })) ∧
    (buildWhereClause fixSchema (.cons "a" (.vop { nin := some [] }) .nil) 1).isOk = false := by
  constructor
  · with_unfolding_all rfl
  · with_unfolding_all rfl

/-- C3 (amended): an empty `$in` on a non-Array field compiles to an
`IS NULL` constraint; an empty `$nin` emits no constraint, so when it is
the field's only operator the compile call fails with the
unsupported-shape error, while together with an empty `$in` the call
succeeds on the `$in` fragment alone. -/
theorem c3_empty_in_nin (sch : Schema) (name : String) (i : Nat)
    (hdot : name.contains '.' = false)
    (hor : name ≠ "$or") (hand : name ≠ "$and")
    (harr : ((jsGet ((toMySQLSchema sch).fields.getD []) name).any
        (fun d => d.type == "Array")) = false) :
    buildWhereClause sch (.cons name (.vop { qin := some [] }) .nil) i =
      .ok ⟨[Tok.lit "`", Tok.ph i, Tok.lit "` IS NULL"], [QOperand.str name], []⟩ ∧
    buildWhereClause sch (.cons name (.vop { nin := some [] }) .nil) i =
      .error (.opForbidden (.vop { nin := some [] })) ∧
    buildWhereClause sch (.cons name (.vop { qin := some [], nin := some [] }) .nil) i =
      .ok ⟨[Tok.lit "`", Tok.ph i, Tok.lit "` IS NULL"], [QOperand.str name], []⟩ := by
  refine ⟨?_, ?_, ?_⟩ <;>
  · simp only [buildWhereClause, whereFields, processField, fieldOps, hdot, harr, opOf,
      stepNe, stepEq, stepInNin, stepAll, stepExists, stepText, stepNear, stepWithin,
      stepGeoWithin, stepRegex, stepTType, stepCmps, oneCmp, createConstraint,
      if_false, if_true, hor, hand]
    simp [Except.map, Except.bind, bind, pure, joinFrags, transformValue, hor, hand, harr]

/-- C3 (witness): `c3_empty_in_nin` at the concrete two-field schema,
field `a`, start index 1. -/
theorem c3_empty_in_nin_witness :
    ("a".contains '.' = false) ∧
    buildWhereClause fixSchema (.cons "a" (.vop { qin := some [] }) .nil) 1 =
      .ok ⟨[Tok.lit "`", Tok.ph 1, Tok.lit "` IS NULL"], [QOperand.str "a"], []⟩ :=
  ⟨by with_unfolding_all rfl,
    (c3_empty_in_nin fixSchema "a" 1 (by with_unfolding_all rfl) (by decide) (by decide)
      (by with_unfolding_all rfl)).1⟩

/-- C5 (counterexample): a dotted field inlines its literal into the text,
consumes no placeholder and pushes no value — against the claim's "one
placeholder index for the literal" and "only placeholder tokens, never the
inlined literal"; a following field still starts at the original index. -/
theorem c5_counterexample :
    buildWhereClause fixSchemaObj (.cons "a.b" (.vstr "x") .nil) 1 =
      .ok ⟨[Tok.lit "`a`->>'$.b' = 'x'"], [], []⟩ ∧
    render [Tok.lit "`a`->>'$.b' = 'x'"] = "`a`->>'$.b' = 'x'" ∧
    phs [Tok.lit "`a`->>'$.b' = 'x'"] = [] ∧
    buildWhereClause fixSchemaObj (.cons "a.b" (.vstr "x") (.cons "n" (.vstr "y") .nil)) 1 =
      .ok ⟨[Tok.lit "`a`->>'$.b' = 'x'", Tok.lit " AND ", Tok.lit "`", Tok.ph 1,
            Tok.lit "` = '", Tok.ph 2, Tok.lit "'"],
           [.str "n", .str "y"], []⟩ := by
  refine ⟨by with_unfolding_all rfl, rfl, rfl, by with_unfolding_all rfl⟩

/-- C5 (amended): a dotted field with a bare scalar value emits the
JSON-path extraction compared to the value inlined as a quoted literal,
pushes no value and advances the placeholder index by none; with a `null`
value the `IS NULL` fragment is built but the call then crashes with a
TypeError when the operator blocks read a property of `null`. -/
theorem c5_dotted_fields (sch : Schema) (name : String) (v : QVal) (i : Nat)
    (hdot : name.contains '.' = true) (hsc : isBareScalar v = true) :
    processField sch name v i =
      .ok ([[Tok.lit (dotName (name.splitOn ".") ++ " = '" ++ jsToStringQ v ++ "'")]],
        [], [], i) ∧
    buildWhereClause sch (.cons name v .nil) i =
      .ok ⟨[Tok.lit (dotName (name.splitOn ".") ++ " = '" ++ jsToStringQ v ++ "'")], [], []⟩ ∧
    buildWhereClause sch (.cons name QVal.vnull .nil) i = .error .typeErr := by
  refine ⟨?_, ?_, ?_⟩
  · cases v <;> first
    | · simp only [processField, fieldOps, hdot, opOf, stepNe, stepEq, stepInNin, stepAll,
          stepExists, stepText, stepNear, stepWithin, stepGeoWithin, stepRegex,
          stepTType, stepCmps, oneCmp, if_true]
        simp [Except.bind, bind, pure]
    | simp [isBareScalar] at hsc
  · cases v <;> first
    | · simp only [buildWhereClause, whereFields, processField, fieldOps, hdot, opOf, stepNe,
          stepEq, stepInNin, stepAll, stepExists, stepText, stepNear, stepWithin,
          stepGeoWithin, stepRegex, stepTType, stepCmps, oneCmp, if_true]
        simp [Except.map, Except.bind, bind, pure, joinFrags, transformValue]
    | simp [isBareScalar] at hsc
  · simp only [buildWhereClause, whereFields, processField, hdot, if_true]
    simp [Except.map, Except.bind, bind, pure]

/-- C5 (witness): `c5_dotted_fields` at the concrete schema, field
`a.b`, value `"x"`, start index 1. -/
theorem c5_dotted_fields_witness :
    ("a.b".contains '.' = true) ∧ isBareScalar (.vstr "x") = true ∧
    buildWhereClause fixSchemaObj (.cons "a.b" (.vstr "x") .nil) 1 =
      .ok ⟨[Tok.lit (dotName ("a.b".splitOn ".") ++ " = '" ++ jsToStringQ (.vstr "x") ++ "'")],
        [], []⟩ :=
  ⟨by with_unfolding_all rfl, by decide,
    (c5_dotted_fields fixSchemaObj "a.b" (.vstr "x") 1 (by with_unfolding_all rfl)
      (by decide)).2.1⟩

/-- C10: a falsy operand (`0`, `false`, `""`) behind `$eq`, `$gt`, `$lt`,
`$gte` or `$lte` emits nothing (the truthiness guard skips the block), and
when such a comparison is the field's only operator the whole call fails
with the unsupported-shape error. -/
theorem c10_falsy_comparisons (sch : Schema) (name : String) (o : OpObj) (v : QOperand)
    (sym : String) (i : Nat) (hf : truthy v = false) (hdot : name.contains '.' = false)
    (hor : name ≠ "$or") (hand : name ≠ "$and") :
    stepEq name { o with eq := some v } i = ([], [], i) ∧
    oneCmp name (some v) sym i = ([], [], i) ∧
    (∀ c : CmpSel, buildWhereClause sch (.cons name (.vop (mkCmp c v)) .nil) i =
      .error (.opForbidden (.vop (mkCmp c v)))) := by
  refine ⟨by simp [stepEq, hf], by simp [oneCmp, hf], fun c => ?_⟩
  cases c <;>
  · simp only [buildWhereClause, whereFields, processField, fieldOps, mkCmp, hdot, opOf,
      stepNe, stepEq, stepInNin, stepAll, stepExists, stepText, stepNear, stepWithin,
      stepGeoWithin, stepRegex, stepTType, stepCmps, oneCmp, if_false, if_true,
      hor, hand, hf]
    simp [Except.map, Except.bind, bind, pure, hor, hand, hf]

/-- C10 (witness): `c10_falsy_comparisons` at field `a`, operand `0`,
selector `$lte`. -/
theorem c10_falsy_comparisons_witness :
    truthy (QOperand.num 0) = false ∧
    buildWhereClause fixSchema (.cons "a" (.vop (mkCmp .lte (.num 0))) .nil) 1 =
      .error (.opForbidden (.vop (mkCmp .lte (.num 0)))) :=
  ⟨by decide,
    (c10_falsy_comparisons fixSchema "a" {} (.num 0) ">" 1 (by decide)
      (by with_unfolding_all rfl) (by decide) (by decide)).2.2 .lte⟩

/-! ### Pre-processing identities for the single-field update -/

theorem handleDotFieldsGo_nodots {st : List (String × UVal)} {keys : List String}
    (h : ∀ k ∈ keys, k.contains '.' = false) : handleDotFieldsGo st keys = .ok st := by
  induction keys with
  | nil => rfl
  | cons k rest ih =>
    have hk := h k (by simp)
    simp only [handleDotFieldsGo, hk, Bool.false_eq_true, if_false]
    exact ih (fun k' hk' => h k' (by simp [hk']))

theorem foldAuthDataGo_none {st : List (String × UVal)} {keys : List String}
    (h : ∀ k ∈ keys, authProvider k = none) : foldAuthDataGo st keys = .ok st := by
  induction keys with
  | nil => rfl
  | cons k rest ih =>
    have hk := h k (by simp)
    simp only [foldAuthDataGo, hk]
    exact ih (fun k' hk' => h k' (by simp [hk']))

/-- C4 (counterexample): the unsupported-shape errors of both compilers
are functions of the offending value alone — two different field names
with the same unsupported value produce identical errors, so the error
does not carry the field name. -/
theorem c4_counterexample :
    buildWhereClause fixSchema (.cons "a" fixBadVal .nil) 1 =
      buildWhereClause fixSchema (.cons "b" fixBadVal .nil) 1 ∧
    buildWhereClause fixSchema (.cons "a" fixBadVal .nil) 1 =
      .error (.opForbidden fixBadVal) ∧
    transformUpdate fixSchema [("a", .obj [("k", .num 1)])] =
      transformUpdate fixSchema [("b", .obj [("k", .num 1)])] ∧
    transformUpdate fixSchema [("a", .obj [("k", .num 1)])] =
      .error (.updForbidden "\x7b\"k\":1\x7d") := by
  refine ⟨by with_unfolding_all rfl, by with_unfolding_all rfl,
    by with_unfolding_all rfl, by with_unfolding_all rfl⟩

/-- C4 (amended): a value matching no supported shape makes the compile
call fail with an unsupported-shape error that carries the offending value
(for updates, its JSON rendering) but not the field name; the failure
aborts the whole call regardless of any remaining fields, so no partially
compiled fragment is returned. -/
theorem c4_unsupported_shape (sch : Schema) (name : String) (o : OpObj) (i : Nat)
    (rest : Query) (sfs : List (String × FieldDef)) (name2 : String)
    (fs2 : List (String × UVal))
    (hin : inertOp o = true) (hdot : name.contains '.' = false)
    (hor : name ≠ "$or") (hand : name ≠ "$and")
    (husfs : sch.fields = some sfs)
    (hobj : (jsGet sfs name2).any (fun d => d.type == "Object") = false)
    (hdot2 : name2.contains '.' = false) (hauth : authProvider name2 = none)
    (hname : name2 ≠ "authData") (hupd : name2 ≠ "updatedAt")
    (hfin : name2 ≠ "finishedAt") :
    buildWhereClause sch (.cons name (.vop o) rest) i = .error (.opForbidden (.vop o)) ∧
    transformUpdate sch [(name2, UVal.obj fs2)] =
      .error (.updForbidden (jsonStrD (.obj fs2))) := by
  constructor
  · simp only [inertOp, Bool.and_eq_true, and_assoc, Option.isNone_iff_eq_none] at hin
    obtain ⟨hne, heq, hqin, hnin, hall, hexs, htext, hnear, hwithin, hgeo, hregex,
      httype, hgt, hlt, hgte, hlte⟩ := hin
    simp only [buildWhereClause, whereFields, processField, fieldOps, hdot, opOf,
      stepNe, hne, stepInNin, hqin, hnin, stepAll, hall, stepExists, hexs,
      stepText, htext, stepNear, hnear, stepTType, httype, stepCmps,
      stepEq_inert heq, oneCmp_inert hgt, oneCmp_inert hlt, oneCmp_inert hgte,
      oneCmp_inert hlte, stepWithin_inert hwithin, stepGeoWithin_inert hgeo,
      stepRegex_inert hregex, if_false, if_true, hor, hand]
    simp [Except.map, Except.bind, bind, pure, hor, hand]
  · simp only [transformUpdate, handleDotFields, foldAuthData, List.map_cons,
      List.map_nil, bind, Except.bind]
    rw [handleDotFieldsGo_nodots (by intro k hk; simp at hk; simp [hk, hdot2])]
    simp only []
    rw [foldAuthDataGo_none (by intro k hk; simp at hk; simp [hk, hauth])]
    simp only [processUpdFields, processUpd, isNullU, hname, hupd, hfin,
      husfs, hobj, if_false, Bool.false_eq_true, bind, Except.bind]
    simp [hname, hupd, hfin, hobj]

/-- C4 (witness): `c4_unsupported_shape` at concrete inputs (field `a`
with an inert operator object for the query side; field `n` with a plain
object on a `String`-typed column for the update side). -/
theorem c4_unsupported_shape_witness :
    inertOp {} = true ∧
    buildWhereClause fixSchemaObj (.cons "a2" (.vop {}) .nil) 3 =
      .error (.opForbidden (.vop {})) ∧
    transformUpdate fixSchemaObj [("n", UVal.obj [("k", .num 1)])] =
      .error (.updForbidden (jsonStrD (.obj [("k", .num 1)]))) :=
  ⟨by decide,
    ((c4_unsupported_shape fixSchemaObj "a2" {} 3 .nil
      [("a", ⟨"Object", none⟩), ("n", ⟨"String", none⟩)] "n" [("k", .num 1)]
      (by decide) (by with_unfolding_all rfl) (by decide) (by decide) rfl (by decide)
      (by with_unfolding_all rfl) (by with_unfolding_all rfl) (by decide) (by decide)
      (by decide))).1,
    ((c4_unsupported_shape fixSchemaObj "a2" {} 3 .nil
      [("a", ⟨"Object", none⟩), ("n", ⟨"String", none⟩)] "n" [("k", .num 1)]
      (by decide) (by with_unfolding_all rfl) (by decide) (by decide) rfl (by decide)
      (by with_unfolding_all rfl) (by with_unfolding_all rfl) (by decide) (by decide)
      (by decide))).2⟩


/-! ### Termination bound for the literalizer recursion (C9) -/

theorem findFrom_spec {mm : List Char → List Char → Nat → Bool} {s : List Char} {i : Nat} :
    ∀ (l : List Char) (j : Nat), l = s.drop j → findFrom mm s l j = some i →
      s.drop i ≠ [] ∧ mm s (s.drop i) i = true := by
  intro l
  induction l with
  | nil =>
    intro j _ h
    simp [findFrom] at h
  | cons c rest ih =>
    intro j hl h
    simp only [findFrom] at h
    cases hm : mm s (c :: rest) j with
    | true =>
      rw [if_pos hm] at h
      cases h
      exact ⟨by rw [← hl]; simp, by rw [← hl]; exact hm⟩
    | false =>
      rw [if_neg (by simp [hm])] at h
      refine ih (j + 1) ?_ h
      have hdr : s.drop (j + 1) = (s.drop j).drop 1 := by
        rw [List.drop_drop, Nat.add_comm]
      rw [hdr, ← hl]
      rfl

theorem findFrom_lt {mm : List Char → List Char → Nat → Bool} {s : List Char} {i : Nat}
    (h : findFrom mm s s 0 = some i) : i < s.length := by
  have hspec := @findFrom_spec mm s i s 0 (by simp) h
  by_contra hge
  exact hspec.1 (List.drop_eq_nil_of_le (by omega))

theorem litAux_stable : ∀ (n : Nat) (s : List Char), s.length < n →
    litAux n s = litAux (s.length + 1) s := by
  intro n
  induction n using Nat.strong_induction_on with
  | _ n ih =>
    intro s hs
    cases n with
    | zero => omega
    | succ m =>
      simp only [litAux]
      cases h1 : findFrom m1At s s 0 with
      | some i =>
        have hi : i < s.length := findFrom_lt h1
        have ht : (s.take i).length = i := by
          simp only [List.length_take]
          omega
        have e1 : litAux m (s.take i) = litAux (i + 1) (s.take i) := by
          rw [ih m (by omega) (s.take i) (by omega), ht]
        have e2 : litAux s.length (s.take i) = litAux (i + 1) (s.take i) := by
          rw [ih s.length (by omega) (s.take i) (by omega), ht]
        simp only []
        rw [e1, e2]
      | none =>
        simp only []
        cases h2 : findFrom m2At s s 0 with
        | some i =>
          have hi : i < s.length := findFrom_lt h2
          have ht : (s.take i).length = i := by
            simp only [List.length_take]
            omega
          have e1 : litAux m (s.take i) = litAux (i + 1) (s.take i) := by
            rw [ih m (by omega) (s.take i) (by omega), ht]
          have e2 : litAux s.length (s.take i) = litAux (i + 1) (s.take i) := by
            rw [ih s.length (by omega) (s.take i) (by omega), ht]
          simp only []
          rw [e1, e2]
        | none => rfl

/-- C9: both recursions of the embedded source terminate.  The regex
literalizer recurses on the strict prefix before the matched span, so the
input length bounds its recursion depth: any budget above it computes
`literalizeRegexPart`.  The query compiler is a total structural recursion
on the document, so it produces a result for every finite document (and
`processRegexPattern` for every finite pattern). -/
theorem c9_termination :
    (∀ (s : List Char) (n : Nat), s.length < n → litAux n s = literalizeRegexPart s) ∧
    (∀ (sch : Schema) (q : Query) (i : Nat), ∃ r, buildWhereClause sch q i = r) ∧
    (∀ s : List Char, ∃ t, processRegexPattern s = t) := by
  refine ⟨fun s n h => ?_, fun sch q i => ⟨_, rfl⟩, fun s => ⟨_, rfl⟩⟩
  rw [literalizeRegexPart]
  exact litAux_stable n s h

/-- C9 (witness): the literalizer bound at a concrete pattern and budget. -/
theorem c9_termination_witness :
    ("\\Qa\\E".data.length < 9) ∧ litAux 9 "\\Qa\\E".data = literalizeRegexPart "\\Qa\\E".data :=
  ⟨by decide, c9_termination.1 "\\Qa\\E".data 9 (by decide)⟩

/-! ### Placeholder-index bookkeeping (C1) -/

theorem phs_append (a b : List Tok) : phs (a ++ b) = phs a ++ phs b := by
  induction a with
  | nil => rfl
  | cons t rest ih => cases t <;> simp [phs, ih]

theorem phs_joinFrags (sep : String) (ps : List (List Tok)) :
    phs (joinFrags sep ps) = (ps.map phs).flatten := by
  induction ps with
  | nil => rfl
  | cons f rest ih =>
    cases rest with
    | nil => simp [joinFrags, phs]
    | cons g rs =>
      have hjf : joinFrags sep (f :: g :: rs) =
          f ++ Tok.lit sep :: joinFrags sep (g :: rs) := rfl
      rw [hjf, phs_append]
      have hlit : phs (Tok.lit sep :: joinFrags sep (g :: rs)) =
          phs (joinFrags sep (g :: rs)) := rfl
      rw [hlit, ih]
      simp

theorem joinFrags_cons_ne_nil (sep : String) (f : List Tok) (rest : List (List Tok))
    (hf : f ≠ []) : joinFrags sep (f :: rest) ≠ [] := by
  cases rest with
  | nil => simpa [joinFrags] using hf
  | cons g rs =>
    have hjf : joinFrags sep (f :: g :: rs) =
        f ++ Tok.lit sep :: joinFrags sep (g :: rs) := rfl
    rw [hjf]
    simp

theorem join_singleton_map : ∀ ts : List Nat, (ts.map (fun t => [t])).flatten = ts := by
  intro ts
  induction ts with
  | nil => rfl
  | cons t rest ih => simp [ih]

theorem mem_fstDedupAux {x : Nat} (l : List Nat) : ∀ (seen : List Nat),
    x ∈ fstDedupAux seen l ↔ x ∈ l ∧ x ∉ seen := by
  induction l with
  | nil => intro seen; simp [fstDedupAux]
  | cons y ys ih =>
    intro seen
    by_cases hy : y ∈ seen
    · rw [fstDedupAux, if_pos hy, ih seen]
      constructor
      · rintro ⟨h1, h2⟩
        exact ⟨List.mem_cons_of_mem _ h1, h2⟩
      · rintro ⟨h1, h2⟩
        rcases List.mem_cons.mp h1 with h | h
        · subst h
          exact absurd hy h2
        · exact ⟨h, h2⟩
    · rw [fstDedupAux, if_neg hy]
      simp only [List.mem_cons, ih (y :: seen)]
      by_cases hxy : x = y
      · subst hxy
        simp [hy]
      · simp [hxy]

theorem mem_fstDedup {x : Nat} (l : List Nat) : x ∈ fstDedup l ↔ x ∈ l := by
  rw [fstDedup, mem_fstDedupAux]
  simp

theorem fstDedupAux_congr : ∀ (l s1 s2 : List Nat),
    (∀ x ∈ l, x ∈ s1 ↔ x ∈ s2) → fstDedupAux s1 l = fstDedupAux s2 l := by
  intro l
  induction l with
  | nil => intro s1 s2 _; rfl
  | cons y ys ih =>
    intro s1 s2 h
    have hy := h y (List.mem_cons_self y ys)
    by_cases h1 : y ∈ s1
    · rw [fstDedupAux, if_pos h1, fstDedupAux, if_pos (hy.mp h1)]
      exact ih s1 s2 (fun x hx => h x (List.mem_cons_of_mem _ hx))
    · have h2 : y ∉ s2 := fun hh => h1 (hy.mpr hh)
      rw [fstDedupAux, if_neg h1, fstDedupAux, if_neg h2]
      congr 1
      exact ih (y :: s1) (y :: s2) (fun x hx => by
        simp only [List.mem_cons, h x (List.mem_cons_of_mem _ hx)])

theorem fstDedupAux_append : ∀ (a b seen : List Nat),
    fstDedupAux seen (a ++ b) = fstDedupAux seen a ++ fstDedupAux (a ++ seen) b := by
  intro a
  induction a with
  | nil => intro b seen; simp [fstDedupAux]
  | cons y ys ih =>
    intro b seen
    by_cases hy : y ∈ seen
    · rw [List.cons_append, fstDedupAux, if_pos hy, fstDedupAux, if_pos hy, ih]
      congr 1
      apply fstDedupAux_congr
      intro x _
      simp only [List.cons_append, List.mem_cons, List.mem_append]
      constructor
      · rintro (h | h)
        · exact Or.inr (Or.inl h)
        · exact Or.inr (Or.inr h)
      · rintro (h | h)
        · subst h
          exact Or.inr hy
        · exact h
    · rw [List.cons_append, fstDedupAux, if_neg hy, fstDedupAux, if_neg hy,
        ih b (y :: seen), List.cons_append, List.cons_append]
      congr 2
      apply fstDedupAux_congr
      intro x _
      simp only [List.mem_cons, List.mem_append]
      tauto

theorem fstDedup_append_disjoint {a b : List Nat} (h : ∀ x ∈ b, x ∉ a) :
    fstDedup (a ++ b) = fstDedup a ++ fstDedup b := by
  rw [fstDedup, fstDedupAux_append, fstDedup, fstDedup]
  congr 1
  apply fstDedupAux_congr
  intro x hx
  simp [h x hx]

theorem fstDedupAux_of_nodup : ∀ (l seen : List Nat), l.Nodup →
    (∀ x ∈ l, x ∉ seen) → fstDedupAux seen l = l := by
  intro l
  induction l with
  | nil => intros; rfl
  | cons y ys ih =>
    intro seen hnd hdisj
    rw [fstDedupAux, if_neg (hdisj y (List.mem_cons_self y ys))]
    congr 1
    apply ih
    · exact (List.nodup_cons.mp hnd).2
    · intro x hx
      simp only [List.mem_cons]
      rintro (h | h)
      · subst h
        exact (List.nodup_cons.mp hnd).1 hx
      · exact hdisj x (List.mem_cons_of_mem _ hx) h

theorem fstDedup_of_nodup {l : List Nat} (h : l.Nodup) : fstDedup l = l :=
  fstDedupAux_of_nodup l [] h (by simp)

theorem fstDedupAux_pairs (i : Nat) : ∀ (ts seen : List Nat), i ∈ seen → ts.Nodup →
    (∀ t ∈ ts, t ∉ seen) →
    fstDedupAux seen ((ts.map (fun t => [i, t])).flatten) = ts := by
  intro ts
  induction ts with
  | nil => intros; rfl
  | cons t rest ih =>
    intro seen hi hnd hdisj
    simp only [List.map_cons, List.flatten_cons, List.cons_append, List.nil_append]
    rw [fstDedupAux, if_pos hi, fstDedupAux,
      if_neg (hdisj t (List.mem_cons_self _ _))]
    congr 1
    exact ih (t :: seen) (List.mem_cons_of_mem _ hi) (List.nodup_cons.mp hnd).2
      (fun x hx => by
        simp only [List.mem_cons]
        rintro (h | h)
        · subst h
          exact (List.nodup_cons.mp hnd).1 hx
        · exact hdisj x (List.mem_cons_of_mem _ hx) h)

theorem range'_glue : ∀ (m s n : Nat),
    List.range' s m ++ List.range' (s + m) n = List.range' s (m + n) := by
  intro m
  induction m with
  | zero => intro s n; simp
  | succ m ih =>
    intro s n
    have h1 : m + 1 + n = (m + n) + 1 := by omega
    rw [h1, show List.range' s (m + 1) = s :: List.range' (s + 1) m from rfl,
      show List.range' s ((m + n) + 1) = s :: List.range' (s + 1) (m + n) from rfl,
      List.cons_append]
    congr 1
    have h2 : s + (m + 1) = (s + 1) + m := by omega
    rw [h2]
    exact ih (s + 1) n

theorem fstDedup_head_pairs (i m : Nat) :
    fstDedup (i :: ((List.range' (i + 1) m).map (fun t => [i, t])).flatten) =
      List.range' i (m + 1) := by
  rw [show List.range' i (m + 1) = i :: List.range' (i + 1) m from rfl, fstDedup,
    fstDedupAux, if_neg (by simp)]
  congr 1
  apply fstDedupAux_pairs
  · simp
  · exact List.nodup_range' _ _
  · intro t ht
    rw [List.mem_range'_1] at ht
    simp only [List.mem_singleton]
    omega

theorem fstDedup_pairs_join (i m : Nat) (hm : 0 < m) :
    fstDedup (((List.range' (i + 1) m).map (fun t => [i, t])).flatten) =
      i :: List.range' (i + 1) m := by
  cases m with
  | zero => omega
  | succ m =>
    rw [show List.range' (i + 1) (m + 1) = (i + 1) :: List.range' (i + 2) m from rfl]
    simp only [List.map_cons, List.flatten_cons, List.cons_append, List.nil_append]
    rw [fstDedup, fstDedupAux, if_neg (by simp), fstDedupAux,
      if_neg (by intro h; simp at h <;> omega)]
    congr 2
    apply fstDedupAux_pairs
    · simp
    · exact List.nodup_range' _ _
    · intro t ht
      rw [List.mem_range'_1] at ht
      simp only [List.mem_cons, List.mem_nil_iff, or_false]
      omega

theorem fstDedup_head_range (i m : Nat) :
    fstDedup (i :: List.range' (i + 1) m) = List.range' i (m + 1) := by
  rw [show List.range' i (m + 1) = i :: List.range' (i + 1) m from rfl]
  apply fstDedup_of_nodup
  rw [List.nodup_cons]
  refine ⟨fun h => ?_, List.nodup_range' _ _⟩
  rw [List.mem_range'_1] at h
  omega

theorem fstDedup_fresh1 (i : Nat) : fstDedup [i] = List.range' i 1 :=
  fstDedup_of_nodup (by simp)

theorem fstDedup_fresh2 (i : Nat) : fstDedup [i, i + 1] = List.range' i 2 := by
  rw [show List.range' i 2 = [i, i + 1] from rfl]
  apply fstDedup_of_nodup
  simp

theorem fstDedup_fresh3 (i : Nat) : fstDedup [i, i + 1, i + 2] = List.range' i 3 := by
  rw [show List.range' i 3 = [i, i + 1, i + 2] from rfl]
  apply fstDedup_of_nodup
  simp

theorem fstDedup_fresh4 (i : Nat) :
    fstDedup [i, i + 1, i + 2, i + 3] = List.range' i 4 := by
  rw [show List.range' i 4 = [i, i + 1, i + 2, i + 3] from rfl]
  apply fstDedup_of_nodup
  simp

theorem fstDedup_repeat_ne (i : Nat) : fstDedup [i, i + 1, i] = List.range' i 2 := by
  rw [show List.range' i 2 = [i, i + 1] from rfl, fstDedup, fstDedupAux,
    if_neg (by simp), fstDedupAux, if_neg (by intro h; simp at h <;> omega),
    fstDedupAux, if_pos (by simp), fstDedupAux]

theorem Emits.nil (i : Nat) : Emits i [] [] i := ⟨by simp, rfl, by simp⟩

theorem Emits.append {i j k : Nat} {p1 p2 : List (List Tok)} {v1 v2 : List QOperand}
    (h1 : Emits i p1 v1 j) (h2 : Emits j p2 v2 k) :
    Emits i (p1 ++ p2) (v1 ++ v2) k := by
  obtain ⟨hj1, hd1, hn1⟩ := h1
  obtain ⟨hj2, hd2, hn2⟩ := h2
  subst hj1
  refine ⟨by rw [List.length_append]; omega, ?_, ?_⟩
  · have hdisj : ∀ x ∈ (p2.map phs).flatten, x ∉ (p1.map phs).flatten := by
      intro x hx2 hx1
      have m2 : x ∈ fstDedup ((p2.map phs).flatten) := (mem_fstDedup _).mpr hx2
      have m1 : x ∈ fstDedup ((p1.map phs).flatten) := (mem_fstDedup _).mpr hx1
      rw [hd2, List.mem_range'_1] at m2
      rw [hd1, List.mem_range'_1] at m1
      omega
    rw [List.map_append, List.flatten_append, fstDedup_append_disjoint hdisj, hd1, hd2,
      List.length_append, range'_glue]
  · intro f hf
    rcases List.mem_append.mp hf with h | h
    · exact hn1 f h
    · exact hn2 f h

theorem Emits.head {i j : Nat} {f : List Tok} {pats : List (List Tok)}
    {vals : List QOperand} (hf : f ≠ []) (hphs : phs f = [])
    (h : Emits i pats vals j) : Emits i (f :: pats) vals j := by
  obtain ⟨hj, hd, hn⟩ := h
  refine ⟨hj, ?_, ?_⟩
  · simp only [List.map_cons, List.flatten_cons, hphs, List.nil_append]
    exact hd
  · intro g hg
    rcases List.mem_cons.mp hg with h | h
    · subst h
      exact hf
    · exact hn g h

/-- C1 (counterexample): the `$ne` fragment repeats the field-name
placeholder — `(\`$1:name\` <> '$2:name' OR \`$1:name\` IS NULL)` carries
three placeholder tokens against two values, and index 1 appears twice, so
neither "the number of placeholder tokens equals `values.length`" nor "no
index appearing more than once" holds of the returned pattern. -/
theorem c1_counterexample :
    buildWhereClause fixSchema
        (.cons "a" (.vop { ne := some (.str "x") }) .nil) 1 =
      .ok ⟨[Tok.lit "(`", Tok.ph 1, Tok.lit "` <> '", Tok.ph 2, Tok.lit "' OR `",
            Tok.ph 1, Tok.lit "` IS NULL)"],
           [.str "a", .str "x"], []⟩ ∧
    phs [Tok.lit "(`", Tok.ph 1, Tok.lit "` <> '", Tok.ph 2, Tok.lit "' OR `",
        Tok.ph 1, Tok.lit "` IS NULL)"] = [1, 2, 1] ∧
    ¬ ([1, 2, 1].length = 2) ∧ ¬ ([1, 2, 1] : List Nat).Nodup := by
  exact ⟨by with_unfolding_all rfl, rfl, by decide, by decide⟩

theorem inStrFold_spec (i : Nat) : ∀ (l : List QOperand) (pos : Nat) (allowNull : Bool),
    l.countP (fun e => e == QOperand.null) + (if allowNull then 1 else 0) ≤ 1 →
    (if allowNull then 1 else 0) ≤ pos →
    (inStrFold i l pos allowNull).2.map phs =
      (List.range' (i + 1 + pos - (if allowNull then 1 else 0))
        (inStrFold i l pos allowNull).2.length).map (fun t => [i, t]) ∧
    (inStrFold i l pos allowNull).2.length = (inStrFold i l pos allowNull).1.length ∧
    (inStrFold i l pos allowNull).1.length +
      l.countP (fun e => e == QOperand.null) = l.length := by
  intro l
  induction l with
  | nil =>
    intro pos allowNull _ _
    exact ⟨rfl, rfl, by simp [inStrFold]⟩
  | cons e rest ih =>
    intro pos allowNull hcnt hpos
    by_cases he : e = QOperand.null
    · subst he
      have hcp : (QOperand.null :: rest).countP (fun x => x == QOperand.null) =
          rest.countP (fun x => x == QOperand.null) + 1 :=
        List.countP_cons_of_pos _ _ (by simp)
      rw [hcp] at hcnt
      cases allowNull with
      | true => simp at hcnt
      | false =>
        have hred : inStrFold i (QOperand.null :: rest) pos false =
            inStrFold i rest (pos + 1) true := by
          rw [inStrFold]
          simp
        rw [hred, hcp]
        obtain ⟨h1, h2, h3⟩ := ih (pos + 1) true
          (by
            rw [show ((if (false : Bool) then 1 else 0) : Nat) = 0 from rfl] at hcnt
            rw [show ((if (true : Bool) then 1 else 0) : Nat) = 1 from rfl]
            omega)
          (by rw [show ((if (true : Bool) then 1 else 0) : Nat) = 1 from rfl]; omega)
        refine ⟨?_, h2, by simp only [List.length_cons] <;> omega⟩
        rw [h1]
        have e1 : ((if (true : Bool) then 1 else 0) : Nat) = 1 := rfl
        have e2 : ((if (false : Bool) then 1 else 0) : Nat) = 0 := rfl
        rw [e1, e2]
        have hs : i + 1 + (pos + 1) - 1 = i + 1 + pos - 0 := by omega
        rw [hs]
    · have hcp : (e :: rest).countP (fun x => x == QOperand.null) =
          rest.countP (fun x => x == QOperand.null) :=
        List.countP_cons_of_neg _ _ (by simp [he])
      have hred : inStrFold i (e :: rest) pos allowNull =
          (e :: (inStrFold i rest (pos + 1) allowNull).1,
           [Tok.lit "JSON_CONTAINS(`", Tok.ph i, Tok.lit "`, JSON_ARRAY('",
            Tok.ph (i + 1 + pos - (if allowNull then 1 else 0)), Tok.lit "')) = 1"]
             :: (inStrFold i rest (pos + 1) allowNull).2) := by
        rw [inStrFold, if_neg he]
      rw [hred, hcp]
      obtain ⟨h1, h2, h3⟩ := ih (pos + 1) allowNull (by rw [hcp] at hcnt; exact hcnt)
        (le_trans hpos (Nat.le_succ pos))
      refine ⟨?_, by simp [List.length_cons, h2], by simp [List.length_cons]; omega⟩
      simp only [List.map_cons, List.length_cons]
      rw [show List.range' (i + 1 + pos - (if allowNull then 1 else 0))
          ((inStrFold i rest (pos + 1) allowNull).2.length + 1) =
        (i + 1 + pos - (if allowNull then 1 else 0)) ::
          List.range' (i + 1 + pos - (if allowNull then 1 else 0) + 1)
            ((inStrFold i rest (pos + 1) allowNull).2.length) from rfl,
        List.map_cons]
      congr 1
      have hs : i + 1 + pos - (if allowNull then 1 else 0) + 1 =
          i + 1 + (pos + 1) - (if allowNull then 1 else 0) := by omega
      rw [h1, hs]

theorem inStrBranch_emits (name : String) (l : List QOperand) (i : Nat)
    (hcnt : l.countP (fun e => e == QOperand.null) ≤ 1) :
    Emits i (inStrBranch name l i).1 (inStrBranch name l i).2.1
      (inStrBranch name l i).2.2 := by
  obtain ⟨h1, h2, h3⟩ := inStrFold_spec i l 0 false (by simpa using hcnt) (by simp)
  have hstart : i + 1 + 0 - (if (false : Bool) then 1 else 0) = i + 1 := rfl
  rw [hstart] at h1
  have hred : inStrBranch name l i =
      ([if l.contains QOperand.null then
          Tok.lit "(`" :: Tok.ph i :: Tok.lit "` IS NULL OR " ::
            (joinFrags " OR " (inStrFold i l 0 false).2 ++ [Tok.lit ")"])
        else Tok.lit "`" :: Tok.ph i :: Tok.lit "` && "
            :: joinFrags " OR " (inStrFold i l 0 false).2],
       QOperand.str name :: (inStrFold i l 0 false).1,
       i + 1 + (inStrFold i l 0 false).2.length) := rfl
  rw [hred]
  refine ⟨by simp [List.length_cons] <;> omega, ?_, ?_⟩
  · by_cases hnl : l.contains QOperand.null = true
    · rw [if_pos hnl]
      simp only [List.map_cons, List.map_nil, List.flatten_cons, List.flatten_nil,
        List.append_nil]
      have hphs : phs (Tok.lit "(`" :: Tok.ph i :: Tok.lit "` IS NULL OR " ::
          (joinFrags " OR " (inStrFold i l 0 false).2 ++ [Tok.lit ")"])) =
          i :: phs (joinFrags " OR " (inStrFold i l 0 false).2 ++ [Tok.lit ")"]) := rfl
      rw [hphs, phs_append, show phs [Tok.lit ")"] = [] from rfl, List.append_nil,
        phs_joinFrags, h1, fstDedup_head_pairs] <;>
      simp [List.length_cons, h2]
    · rw [if_neg hnl]
      simp only [List.map_cons, List.map_nil, List.flatten_cons, List.flatten_nil,
        List.append_nil]
      have hphs : phs (Tok.lit "`" :: Tok.ph i :: Tok.lit "` && "
          :: joinFrags " OR " (inStrFold i l 0 false).2) =
          i :: phs (joinFrags " OR " (inStrFold i l 0 false).2) := rfl
      rw [hphs, phs_joinFrags, h1, fstDedup_head_pairs] <;>
      simp [List.length_cons, h2]
  · intro f hf
    rcases List.mem_cons.mp hf with h | h
    · subst h
      by_cases hnl : l.contains QOperand.null = true
      · rw [if_pos hnl]
        simp
      · rw [if_neg hnl]
        simp
    · simp at h

theorem ccArrFold_spec (i : Nat) (op : String) : ∀ (l : List QOperand) (k : Nat),
    (ccArrFold i op l k).2.map phs =
      (List.range' (i + 1 + k) l.length).map (fun t => [i, t]) ∧
    (ccArrFold i op l k).2.length = l.length ∧
    (ccArrFold i op l k).1.length = l.length ∧
    ∀ f ∈ (ccArrFold i op l k).2, f ≠ [] := by
  intro l
  induction l with
  | nil => intro k; exact ⟨rfl, rfl, rfl, by simp [ccArrFold]⟩
  | cons e rest ih =>
    intro k
    have hred : ccArrFold i op (e :: rest) k =
        (QOperand.str (jsonOfOperand e) :: (ccArrFold i op rest (k + 1)).1,
         [Tok.lit "JSON_CONTAINS(`", Tok.ph i, Tok.lit "`, '", Tok.ph (i + 1 + k),
          Tok.lit ("') " ++ op ++ " 1")] :: (ccArrFold i op rest (k + 1)).2) := rfl
    rw [hred]
    obtain ⟨h1, h2, h3, h4⟩ := ih (k + 1)
    refine ⟨?_, by simp [List.length_cons, h2], by simp [List.length_cons, h3], ?_⟩
    · simp only [List.map_cons, List.length_cons]
      rw [show List.range' (i + 1 + k) (rest.length + 1) =
          (i + 1 + k) :: List.range' (i + 1 + k + 1) rest.length from rfl, List.map_cons]
      congr 1 <;> exact h1
    · intro f hf
      rcases List.mem_cons.mp hf with h | h
      · subst h
        simp
      · exact h4 f h

theorem ccNonArrFold_spec (i : Nat) : ∀ (l : List QOperand) (k : Nat),
    (ccNonArrFold i l k).2.map phs =
      (List.range' (i + 1 + k) l.length).map (fun t => [t]) ∧
    (ccNonArrFold i l k).2.length = l.length ∧
    (ccNonArrFold i l k).1 = l := by
  intro l
  induction l with
  | nil => intro k; exact ⟨rfl, rfl, rfl⟩
  | cons e rest ih =>
    intro k
    have hred : ccNonArrFold i (e :: rest) k =
        (e :: (ccNonArrFold i rest (k + 1)).1,
         [Tok.lit "'", Tok.ph (i + 1 + k), Tok.lit "'"]
           :: (ccNonArrFold i rest (k + 1)).2) := rfl
    rw [hred]
    obtain ⟨h1, h2, h3⟩ := ih (k + 1)
    refine ⟨?_, by simp [List.length_cons, h2], by rw [h3]⟩
    simp only [List.map_cons, List.length_cons]
    rw [show List.range' (i + 1 + k) (rest.length + 1) =
        (i + 1 + k) :: List.range' (i + 1 + k + 1) rest.length from rfl, List.map_cons]
    congr 1 <;> exact h1

theorem createConstraint_emits (name : String) (isArr : Bool) (l : List QOperand)
    (notIn : Bool) (i : Nat) :
    Emits i (createConstraint name isArr l notIn i).1
      (createConstraint name isArr l notIn i).2.1
      (createConstraint name isArr l notIn i).2.2 := by
  by_cases hlen : l.length > 0
  · cases isArr with
    | true =>
      obtain ⟨h1, h2, h3, h4⟩ :=
        ccArrFold_spec i (if notIn then " != " else " = ") l 0
      have hred : createConstraint name true l notIn i =
          ([joinFrags " || " (ccArrFold i (if notIn then " != " else " = ") l 0).2],
           QOperand.str name ::
             (ccArrFold i (if notIn then " != " else " = ") l 0).1,
           i + 1 + (ccArrFold i (if notIn then " != " else " = ") l 0).2.length) := by
        rw [createConstraint, if_pos hlen]
        rfl
      rw [hred]
      refine ⟨by simp [List.length_cons, h3, h2] <;> omega, ?_, ?_⟩
      · simp only [List.map_cons, List.map_nil, List.flatten_cons, List.flatten_nil,
          List.append_nil]
        rw [phs_joinFrags, h1]
        simp only [Nat.add_zero]
        rw [fstDedup_pairs_join i l.length hlen, show List.range' i
            ((QOperand.str name ::
              (ccArrFold i (if notIn then " != " else " = ") l 0).1).length) =
          List.range' i
            ((ccArrFold i (if notIn then " != " else " = ") l 0).1.length + 1) from
            rfl, h3]
        rw [show List.range' i (l.length + 1) = i :: List.range' (i + 1) l.length from
          rfl]
      · intro f hf
        rcases List.mem_cons.mp hf with h | h
        · subst h
          rcases hc : (ccArrFold i (if notIn then " != " else " = ") l 0).2 with
            _ | ⟨f0, rest0⟩
          · exfalso
            have := h2
            rw [hc] at this
            simp at this
            omega
          · apply joinFrags_cons_ne_nil
            apply h4
            rw [hc]
            exact List.mem_cons_self _ _
        · simp at h
    | false =>
      obtain ⟨h1, h2, h3⟩ := ccNonArrFold_spec i l 0
      have hred : createConstraint name false l notIn i =
          ([Tok.lit "`" :: Tok.ph i ::
              Tok.lit ("` " ++ (if notIn then " NOT " else "") ++ " IN (") ::
              (joinFrags "," (ccNonArrFold i l 0).2 ++ [Tok.lit ")"])],
           QOperand.str name :: (ccNonArrFold i l 0).1,
           i + 1 + (ccNonArrFold i l 0).2.length) := by
        rw [createConstraint, if_pos hlen]
        rfl
      rw [hred]
      refine ⟨by simp [List.length_cons, h3, h2] <;> omega, ?_, by simp⟩
      simp only [List.map_cons, List.map_nil, List.flatten_cons, List.flatten_nil,
        List.append_nil]
      have hphs : phs (Tok.lit "`" :: Tok.ph i ::
          Tok.lit ("` " ++ (if notIn then " NOT " else "") ++ " IN (") ::
          (joinFrags "," (ccNonArrFold i l 0).2 ++ [Tok.lit ")"])) =
          i :: phs (joinFrags "," (ccNonArrFold i l 0).2 ++ [Tok.lit ")"]) := rfl
      rw [hphs, phs_append, show phs [Tok.lit ")"] = [] from rfl, List.append_nil,
        phs_joinFrags, h1]
      simp only [Nat.add_zero]
      rw [join_singleton_map, fstDedup_head_range, h3]
      simp [List.length_cons]
  · have hl0 : l.length = 0 := by omega
    cases notIn with
    | false =>
      have hred : createConstraint name isArr l false i =
          ([[Tok.lit "`", Tok.ph i, Tok.lit "` IS NULL"]], [QOperand.str name],
           i + 1) := by
        rw [createConstraint, if_neg hlen]
        simp
      rw [hred]
      exact ⟨rfl, fstDedup_fresh1 i, by simp⟩
    | true =>
      have hred : createConstraint name isArr l true i = ([], [], i) := by
        rw [createConstraint, if_neg hlen]
        simp
      rw [hred]
      exact Emits.nil i

theorem stepNe_emits (isArr : Bool) (name : String) (o : OpObj) (i : Nat) :
    Emits i (stepNe isArr name o i).1 (stepNe isArr name o i).2.1
      (stepNe isArr name o i).2.2.1 := by
  unfold stepNe
  cases hne : o.ne with
  | none => exact Emits.nil i
  | some nv =>
    cases isArr with
    | true => exact ⟨rfl, fstDedup_fresh2 i, by simp⟩
    | false =>
      simp only []
      by_cases hnv : nv = QOperand.null
      · subst hnv
        exact ⟨rfl, fstDedup_fresh1 i, by simp⟩
      · rw [if_neg hnv]
        exact ⟨rfl, fstDedup_repeat_ne i, by simp⟩

theorem stepEq_emits (name : String) (o : OpObj) (i : Nat) :
    Emits i (stepEq name o i).1 (stepEq name o i).2.1 (stepEq name o i).2.2 := by
  unfold stepEq
  cases hv : o.eq with
  | none => exact Emits.nil i
  | some v =>
    simp only []
    by_cases ht : truthy v = true
    · rw [if_pos ht]
      exact ⟨rfl, fstDedup_fresh2 i, by simp⟩
    · rw [if_neg ht]
      exact Emits.nil i

theorem stepInNin_emits (isArr cs : Bool) (name : String) (o : OpObj) (i : Nat)
    (hwf : ∀ l, o.qin = some l → l.countP (fun e => e == QOperand.null) ≤ 1) :
    Emits i (stepInNin isArr cs name o i).1 (stepInNin isArr cs name o i).2.1
      (stepInNin isArr cs name o i).2.2 := by
  unfold stepInNin
  by_cases hc : (o.qin.isSome && isArr && cs) = true
  · rw [if_pos hc]
    cases hq : o.qin with
    | none => exact Emits.nil i
    | some l => exact inStrBranch_emits name l i (hwf l hq)
  · rw [if_neg hc]
    by_cases h2 : (o.qin.isSome || o.nin.isSome) = true
    · rw [if_pos h2]
      cases hq : o.qin with
      | none =>
        cases hn : o.nin with
        | none => exact Emits.nil i
        | some l2 => exact createConstraint_emits name isArr l2 true i
      | some l1 =>
        cases hn : o.nin with
        | none => exact (createConstraint_emits name isArr l1 false i).append (Emits.nil _)
        | some l2 =>
          exact (createConstraint_emits name isArr l1 false i).append
            (createConstraint_emits name isArr l2 true _)
    · rw [if_neg h2]
      exact Emits.nil i

theorem stepAll_emits (isArr : Bool) (name : String) (o : OpObj) (i : Nat) :
    Emits i (stepAll isArr name o i).1 (stepAll isArr name o i).2.1
      (stepAll isArr name o i).2.2 := by
  unfold stepAll
  cases hall : o.all with
  | none => exact Emits.nil i
  | some l =>
    cases isArr with
    | true => exact ⟨rfl, fstDedup_fresh2 i, by simp⟩
    | false => exact Emits.nil i

theorem stepExists_emits (name : String) (o : OpObj) (i : Nat) :
    Emits i (stepExists name o i).1 (stepExists name o i).2.1
      (stepExists name o i).2.2 := by
  unfold stepExists
  cases hex : o.exs with
  | none => exact Emits.nil i
  | some b =>
    cases b with
    | true => exact ⟨rfl, fstDedup_fresh1 i, by simp⟩
    | false => exact ⟨rfl, fstDedup_fresh1 i, by simp⟩

theorem stepText_emits (name : String) (o : OpObj) (i : Nat) (out : _)
    (h : stepText name o i = .ok out) : Emits i out.1 out.2.1 out.2.2 := by
  unfold stepText at h
  cases ht : o.text with
  | none =>
    rw [ht] at h
    injection h with h
    subst h
    exact Emits.nil i
  | some td =>
    rw [ht] at h
    try simp only [] at h
    cases hs : td.search with
    | none =>
      rw [hs] at h
      simp at h
    | some sp =>
      rw [hs] at h
      try simp only [] at h
      cases hterm : sp.term with
      | none =>
        rw [hterm] at h
        simp at h
      | some t =>
        rw [hterm] at h
        try simp only [] at h
        by_cases h0 : t = ""
        · rw [if_pos h0] at h
          simp at h
        · rw [if_neg h0] at h
          by_cases hcs : sp.caseSensitive = some true
          · rw [if_pos hcs] at h
            simp at h
          · rw [if_neg hcs] at h
            by_cases hds : sp.diacriticSensitive = some false
            · rw [if_pos hds] at h
              simp at h
            · rw [if_neg hds] at h
              injection h with h
              subst h
              exact ⟨rfl, fstDedup_fresh2 i, by simp⟩

theorem stepNear_emits (name : String) (o : OpObj) (i : Nat) :
    Emits i (stepNear name o i).1 (stepNear name o i).2.1
      (stepNear name o i).2.2.2 := by
  unfold stepNear
  cases hns : o.nearSphere with
  | none => exact Emits.nil i
  | some p =>
    simp only []
    cases hmd : o.maxDistance with
    | none => exact ⟨rfl, fstDedup_fresh3 i, by simp⟩
    | some d =>
      simp only []
      by_cases hd : d ≠ 0
      · rw [if_pos hd]
        exact ⟨rfl, fstDedup_fresh4 i, by simp⟩
      · rw [if_neg hd]
        exact ⟨rfl, fstDedup_fresh3 i, by simp⟩

theorem stepWithin_emits (name : String) (o : OpObj) (i : Nat) :
    Emits i (stepWithin name o i).1 (stepWithin name o i).2.1
      (stepWithin name o i).2.2 := by
  unfold stepWithin
  cases hw : o.within with
  | none => exact Emits.nil i
  | some w =>
    simp only []
    cases hb : w.box with
    | none => exact Emits.nil i
    | some pq => exact ⟨rfl, fstDedup_fresh2 i, by simp⟩

theorem stepGeoWithin_emits (name : String) (o : OpObj) (i : Nat) (out : _)
    (h : stepGeoWithin name o i = .ok out) : Emits i out.1 out.2.1 out.2.2 := by
  unfold stepGeoWithin at h
  cases hg : o.geoWithin with
  | none =>
    rw [hg] at h
    injection h with h
    subst h
    exact Emits.nil i
  | some gd =>
    rw [hg] at h
    try simp only [] at h
    cases hp : gd.polygon with
    | none =>
      rw [hp] at h
      injection h with h
      subst h
      exact Emits.nil i
    | some pf =>
      rw [hp] at h
      try simp only [] at h
      cases pf with
      | notArr => simp at h
      | arr pts =>
        try simp only [] at h
        by_cases hlen : pts.length < 3
        · rw [if_pos hlen] at h
          simp at h
        · rw [if_neg hlen] at h
          split at h
          · simp at h
          · injection h with h
            subst h
            exact ⟨rfl, fstDedup_fresh2 i, by simp⟩

theorem stepRegex_emits (name : String) (o : OpObj) (i : Nat) :
    Emits i (stepRegex name o i).1 (stepRegex name o i).2.1
      (stepRegex name o i).2.2 := by
  unfold stepRegex
  cases hr : o.regex with
  | none => exact Emits.nil i
  | some r =>
    simp only []
    by_cases h0 : r = ""
    · rw [if_pos h0]
      exact Emits.nil i
    · rw [if_neg h0]
      exact ⟨rfl, fstDedup_fresh2 i, by simp⟩

theorem stepTType_emits (isArr : Bool) (name : String) (o : OpObj) (i : Nat) :
    Emits i (stepTType isArr name o i).1 (stepTType isArr name o i).2.1
      (stepTType isArr name o i).2.2 := by
  unfold stepTType
  cases ht : o.ttype with
  | none => exact Emits.nil i
  | some tag =>
    cases tag with
    | pointer oid =>
      cases isArr with
      | true => exact ⟨rfl, fstDedup_fresh2 i, by simp⟩
      | false => exact ⟨rfl, fstDedup_fresh2 i, by simp⟩
    | date iso => exact ⟨rfl, fstDedup_fresh2 i, by simp⟩
    | geoPoint p => exact ⟨rfl, fstDedup_fresh3 i, by simp⟩

theorem oneCmp_emits (name : String) (opv : Option QOperand) (sym : String) (i : Nat) :
    Emits i (oneCmp name opv sym i).1 (oneCmp name opv sym i).2.1
      (oneCmp name opv sym i).2.2 := by
  unfold oneCmp
  cases opv with
  | none => exact Emits.nil i
  | some v =>
    simp only []
    by_cases ht : truthy v = true
    · rw [if_pos ht]
      exact ⟨rfl, fstDedup_fresh2 i, by simp⟩
    · rw [if_neg ht]
      exact Emits.nil i

theorem stepCmps_emits (name : String) (o : OpObj) (i : Nat) :
    Emits i (stepCmps name o i).1 (stepCmps name o i).2.1 (stepCmps name o i).2.2 :=
  (oneCmp_emits name o.gt ">" i).append ((oneCmp_emits name o.lt "<" _).append
    ((oneCmp_emits name o.gte ">=" _).append (oneCmp_emits name o.lte "<=" _)))

theorem fieldOps_emits (isArr cs : Bool) (name : String) (o : OpObj) (i : Nat)
    (hwf : ∀ l, o.qin = some l → l.countP (fun e => e == QOperand.null) ≤ 1)
    (out : _) (h : fieldOps isArr cs name o i = .ok out) :
    Emits i out.1 out.2.1 out.2.2.2.1 := by
  unfold fieldOps at h
  split at h
  next pNe vNe iNe exitNe heqNe =>
  have hNeE := stepNe_emits isArr name o i
  rw [heqNe] at hNeE
  split at h
  · injection h with h
    subst h
    exact hNeE
  · simp only [bind, Except.bind] at h
    split at h
    · simp at h
    next tx heqTx =>
    try simp only [] at h
    split at h
    · simp at h
    next gw heqGw =>
    try simp only [] at h
    injection h with h
    subst h
    exact hNeE.append ((stepEq_emits name o iNe).append
      ((stepInNin_emits isArr cs name o _ hwf).append ((stepAll_emits isArr name o _).append
        ((stepExists_emits name o _).append ((stepText_emits name o _ tx heqTx).append
          ((stepNear_emits name o _).append ((stepWithin_emits name o _).append
            ((stepGeoWithin_emits name o _ gw heqGw).append ((stepRegex_emits name o _).append
              ((stepTType_emits isArr name o _).append (stepCmps_emits name o _)))))))))))

mutual

theorem whereFields_emits : ∀ (sch : Schema) (q : Query) (i : Nat) (out : FieldsOut),
    wfQ q = true → whereFields sch q i = Except.ok out →
    Emits i out.1 out.2.1 out.2.2.2
  | sch, .nil, i, out, _, hok => by
    injection hok with hok
    subst hok
    exact Emits.nil i
  | sch, .cons name v rest, i, out, hwf, hok => by
    simp only [wfQ, Bool.and_eq_true] at hwf
    obtain ⟨hwv, hwr⟩ := hwf
    simp only [whereFields, bind, Except.bind] at hok
    cases hpf : processField sch name v i with
    | error e =>
      rw [hpf] at hok
      simp at hok
    | ok o1 =>
      rw [hpf] at hok
      try simp only [] at hok
      cases hw2 : whereFields sch rest o1.2.2.2 with
      | error e =>
        rw [hw2] at hok
        simp at hok
      | ok o2 =>
        rw [hw2] at hok
        try simp only [] at hok
        injection hok with hok
        subst hok
        exact (processField_emits sch name v i o1 hwv hpf).append
          (whereFields_emits sch rest o1.2.2.2 o2 hwr hw2)

theorem processField_emits : ∀ (sch : Schema) (name : String) (v : QVal) (i : Nat)
      (out : FieldsOut),
    wfV v = true → processField sch name v i = Except.ok out →
    Emits i out.1 out.2.1 out.2.2.2
  | sch, name, v, i, out, hwf, hok => by
    cases v with
    | vnull =>
      simp only [processField, bind, Except.bind] at hok
      split at hok
      · injection hok with hok
        subst hok
        exact Emits.nil i
      · by_cases hdot : name.contains '.' = true
        · rw [if_pos hdot] at hok
          injection hok
        · rw [if_neg hdot] at hok
          injection hok with hok
          subst hok
          exact ⟨rfl, fstDedup_fresh1 i, by simp⟩
    | vstr s =>
      simp only [processField, bind, Except.bind] at hok
      split at hok
      · injection hok with hok
        subst hok
        exact Emits.nil i
      · by_cases hdot : name.contains '.' = true
        · rw [if_pos hdot] at hok
          injection hok with hok
          subst hok
          exact ⟨rfl, rfl, by simp⟩
        · rw [if_neg hdot] at hok
          injection hok with hok
          subst hok
          exact ⟨rfl, fstDedup_fresh2 i, by simp⟩
    | vbool b =>
      simp only [processField, bind, Except.bind] at hok
      split at hok
      · injection hok with hok
        subst hok
        exact Emits.nil i
      · by_cases hdot : name.contains '.' = true
        · rw [if_pos hdot] at hok
          injection hok with hok
          subst hok
          exact ⟨rfl, rfl, by simp⟩
        · rw [if_neg hdot] at hok
          injection hok with hok
          subst hok
          exact ⟨rfl, fstDedup_fresh2 i, by simp⟩
    | vnum n =>
      simp only [processField, bind, Except.bind] at hok
      split at hok
      · injection hok with hok
        subst hok
        exact Emits.nil i
      · by_cases hdot : name.contains '.' = true
        · rw [if_pos hdot] at hok
          injection hok with hok
          subst hok
          exact ⟨rfl, rfl, by simp⟩
        · rw [if_neg hdot] at hok
          injection hok with hok
          subst hok
          exact ⟨rfl, fstDedup_fresh2 i, by simp⟩
    | vsub qs =>
      simp only [wfV] at hwf
      simp only [processField, bind, Except.bind] at hok
      split at hok
      · injection hok with hok
        subst hok
        exact Emits.nil i
      · by_cases hdot : name.contains '.' = true
        · rw [if_pos hdot] at hok
          injection hok with hok
          subst hok
          exact ⟨rfl, rfl, by simp⟩
        · rw [if_neg hdot] at hok
          by_cases hor : (name = "$or" ∨ name = "$and")
          · rw [if_pos hor] at hok
            cases hsub : whereSubs sch qs i with
            | error e =>
              rw [hsub] at hok
              simp at hok
            | ok sres =>
              rw [hsub] at hok
              try simp only [] at hok
              injection hok with hok
              subst hok
              obtain ⟨hj, hd, hn⟩ := whereSubs_emits sch qs i sres hwf hsub
              refine ⟨by simpa using hj, ?_, ?_⟩
              · simp only [List.append_nil, List.map_cons, List.map_nil,
                  List.flatten_cons, List.flatten_nil]
                rw [show phs (Tok.lit "(" ::
                    (joinFrags (if name = "$or" then " OR " else " AND ") sres.1 ++
                      [Tok.lit ")"])) =
                  phs (joinFrags (if name = "$or" then " OR " else " AND ") sres.1 ++
                    [Tok.lit ")"]) from rfl, phs_append,
                  show phs [Tok.lit ")"] = ([] : List Nat) from rfl, List.append_nil,
                  phs_joinFrags]
                simpa using hd
              · intro f hf
                simp only [List.append_nil, List.mem_singleton] at hf
                subst hf
                simp
          · rw [if_neg hor] at hok
            injection hok
    | vop o =>
      have hwf' : ∀ l, o.qin = some l →
          l.countP (fun e => e == QOperand.null) ≤ 1 := by
        intro l hl
        simp only [wfV, hl, decide_eq_true_eq] at hwf
        exact hwf
      simp only [processField, bind, Except.bind] at hok
      split at hok
      · injection hok with hok
        subst hok
        exact Emits.nil i
      · by_cases hdot : name.contains '.' = true
        · rw [if_pos hdot] at hok
          try simp only [] at hok
          split at hok
          next hc => exact absurd hc (by simp)
          next hc =>
            split at hok
            · simp at hok
            next fo heqFo =>
              split at hok
              · injection hok with hok
                subst hok
                exact Emits.head (by simp) rfl
                  (fieldOps_emits _ _ _ _ _ hwf' fo heqFo)
              · split at hok
                · simp at hok
                · injection hok with hok
                  subst hok
                  exact Emits.head (by simp) rfl
                    (fieldOps_emits _ _ _ _ _ hwf' fo heqFo)
        · rw [if_neg hdot] at hok
          by_cases hor : (name = "$or" ∨ name = "$and")
          · rw [if_pos hor] at hok
            simp at hok
          · rw [if_neg hor] at hok
            try simp only [] at hok
            split at hok
            next hc => exact absurd hc (by simp)
            next hc =>
              split at hok
              · simp at hok
              next fo heqFo =>
                split at hok
                · injection hok with hok
                  subst hok
                  exact fieldOps_emits _ _ _ _ _ hwf' fo heqFo
                · split at hok
                  · simp at hok
                  · injection hok with hok
                    subst hok
                    exact fieldOps_emits _ _ _ _ _ hwf' fo heqFo

theorem whereSubs_emits : ∀ (sch : Schema) (qs : QueryL) (i : Nat)
      (out : List (List Tok) × List QOperand × Nat),
    wfL qs = true → whereSubs sch qs i = Except.ok out →
    Emits i out.1 out.2.1 out.2.2
  | sch, .lnil, i, out, _, hok => by
    injection hok with hok
    subst hok
    exact Emits.nil i
  | sch, .lcons q rest, i, out, hwf, hok => by
    simp only [wfL, Bool.and_eq_true] at hwf
    obtain ⟨hwq, hwr⟩ := hwf
    simp only [whereSubs, bind, Except.bind] at hok
    cases hq : whereFields (toMySQLSchema sch) q i with
    | error e =>
      rw [hq] at hok
      simp at hok
    | ok wout =>
      rw [hq] at hok
      try simp only [] at hok
      obtain ⟨hjw, hdw, hnw⟩ := whereFields_emits (toMySQLSchema sch) q i wout hwq hq
      split at hok
      next hlen =>
        cases hrest : whereSubs sch rest
            (i + (List.map transformValue wout.2.1).length) with
        | error e =>
          rw [hrest] at hok
          simp at hok
        | ok sres =>
          rw [hrest] at hok
          try simp only [] at hok
          injection hok with hok
          subst hok
          have hone : Emits i [joinFrags " AND " wout.1]
              (wout.2.1.map transformValue)
              (i + (wout.2.1.map transformValue).length) := by
            refine ⟨rfl, ?_, ?_⟩
            · simp only [List.map_cons, List.map_nil, List.flatten_cons,
                List.flatten_nil, List.append_nil, phs_joinFrags, List.length_map]
              exact hdw
            · intro f hf
              simp only [List.mem_singleton] at hf
              subst hf
              intro hnil
              rw [hnil] at hlen
              simp at hlen
          exact hone.append (whereSubs_emits sch rest _ sres hwr hrest)
      next hlen =>
        exact whereSubs_emits sch rest i out hwr hok

end

/-- C1 (amended): for every well-formed query — no `$in` list carrying
more than one `null` sentinel — that `buildWhereClause` compiles
successfully, the distinct placeholder indices of the returned pattern, in
order of first textual occurrence, are exactly the contiguous ascending
run starting at the supplied start index whose length is `values.length`:
each value consumes exactly one fresh index, in order, with no gaps and no
index of another value reused.  (Tokens may textually repeat an index —
the `$ne` fragment names its field twice — so the claim's token-count and
no-reuse readings are corrected to this distinct-index form.) -/
theorem c1_placeholder_indices (sch : Schema) (q : Query) (i : Nat) (r : WhereResult)
    (hwf : wfQ q = true) (hok : buildWhereClause sch q i = .ok r) :
    fstDedup (phs r.pattern) = List.range' i r.values.length ∧
    (fstDedup (phs r.pattern)).length = r.values.length := by
  rw [buildWhereClause] at hok
  cases hq : whereFields (toMySQLSchema sch) q i with
  | error e =>
    rw [hq] at hok
    simp [Except.map] at hok
  | ok out =>
    rw [hq] at hok
    simp only [Except.map] at hok
    injection hok with hok
    subst hok
    obtain ⟨hj, hd, hn⟩ := whereFields_emits (toMySQLSchema sch) q i out hwf hq
    constructor
    · show fstDedup (phs (joinFrags " AND " out.1)) =
        List.range' i (out.2.1.map transformValue).length
      rw [phs_joinFrags, List.length_map]
      exact hd
    · show (fstDedup (phs (joinFrags " AND " out.1))).length =
        (out.2.1.map transformValue).length
      rw [phs_joinFrags, List.length_map, hd, List.length_range']

/-- C1 (witness): `c1_placeholder_indices` at the two-field schema, the
query `\x7ba: \x7b$ne: "x"\x7d\x7d` and start index 1: the compiled
fragment's distinct indices are `[1, 2]`, two indices for two values. -/
theorem c1_placeholder_indices_witness :
    wfQ (.cons "a" (.vop { ne := some (.str "x") }) .nil) = true ∧
    (fstDedup (phs (WhereResult.mk
        [Tok.lit "(`", Tok.ph 1, Tok.lit "` <> '", Tok.ph 2, Tok.lit "' OR `",
         Tok.ph 1, Tok.lit "` IS NULL)"]
        [QOperand.str "a", QOperand.str "x"] []).pattern) =
      List.range' 1 (WhereResult.mk
        [Tok.lit "(`", Tok.ph 1, Tok.lit "` <> '", Tok.ph 2, Tok.lit "' OR `",
         Tok.ph 1, Tok.lit "` IS NULL)"]
        [QOperand.str "a", QOperand.str "x"] []).values.length ∧
    (fstDedup (phs (WhereResult.mk
        [Tok.lit "(`", Tok.ph 1, Tok.lit "` <> '", Tok.ph 2, Tok.lit "' OR `",
         Tok.ph 1, Tok.lit "` IS NULL)"]
        [QOperand.str "a", QOperand.str "x"] []).pattern)).length =
      (WhereResult.mk
        [Tok.lit "(`", Tok.ph 1, Tok.lit "` <> '", Tok.ph 2, Tok.lit "' OR `",
         Tok.ph 1, Tok.lit "` IS NULL)"]
        [QOperand.str "a", QOperand.str "x"] []).values.length) :=
  ⟨by with_unfolding_all rfl,
   c1_placeholder_indices fixSchema (.cons "a" (.vop { ne := some (.str "x") }) .nil) 1
     (WhereResult.mk
        [Tok.lit "(`", Tok.ph 1, Tok.lit "` <> '", Tok.ph 2, Tok.lit "' OR `",
         Tok.ph 1, Tok.lit "` IS NULL)"]
        [QOperand.str "a", QOperand.str "x"] [])
     (by with_unfolding_all rfl) (by with_unfolding_all rfl)⟩

end PMSQL
